import Mathlib

/-! Instance-information aggregator (worker/instancepoller).

A shallow embedding of the aggregator of `worker/instancepoller`.  The test
doubles (`testInstance`, `testInstanceGetter`, `newTestInstance`) and the
request/reply records are translated from `aggregate_test.go`.  The
aggregator itself (`aggregate.go`) is not among the source files; its
batching state machine and its result resolution are modelled from the
specification (sections 4.3 and 4.4) and are marked as such.
-/

namespace InstancePoller

/-! ## Data model -/

/-- The type `instance.Id`: an opaque comparable token naming a cloud instance. -/
abbrev Id := String

/-- Modelled from the spec: the type `instance.Address` (package `instance` is
not among the sources): a network address, reduced to the value it carries. -/
structure Address where
  Value : String
deriving DecidableEq, Repr

/-- Modelled from the spec: the function `instance.NewAddresses` (package
`instance` is not among the sources): one address per input string, in order. -/
def NewAddresses (inAddresses : List String) : List Address :=
  inAddresses.map Address.mk

/-- Modelled from the spec: the Go `error` values the aggregator and its tests
handle (the packages `environs` and `errors` are not among the sources).
`ErrPartialInstances` is `environs.ErrPartialInstances`, the partial-result
signal; `NotFound` is what `errors.NotFoundf` builds; `Stopped` is the
specification's StoppedError; `Errorf` is any other error (`fmt.Errorf`). -/
inductive Err where
  | ErrPartialInstances
  | NotFound (what : String)
  | Stopped
  | Errorf (msg : String)
deriving DecidableEq, Repr

/-- Modelled from the spec: the not-found error of `aggregate.go` for an
identifier, `errors.NotFoundf("instance <id>")` as `TestPartialErrResponse`
expects it. -/
def NotFoundf (id : Id) : Err :=
  Err.NotFound ("instance " ++ id)

/-- The record `instanceInfo`, with the fields `TestSingleRequest` compares. -/
structure instanceInfo where
  status : String
  addresses : List Address
deriving DecidableEq, Repr

/-- The Go zero value `instanceInfo{}`. -/
def instanceInfo.zero : instanceInfo :=
  { status := "", addresses := [] }

/-- The record `instanceInfoReply`, with the fields the tests read: an info
and an error. -/
structure instanceInfoReply where
  info : instanceInfo
  err : Option Err
deriving DecidableEq, Repr

/-- The record `instanceInfoReq` as `TestMultipleResponseHandling` builds it;
`reply` is the identity of the reply channel. -/
structure instanceInfoReq where
  instId : Id
  reply : Nat
deriving DecidableEq, Repr

/-- The test double `testInstance` of `aggregate_test.go`. -/
structure testInstance where
  addresses : List Address
  status : String
  err : Option Err
deriving DecidableEq, Repr

/-- The method `(*testInstance).Addresses`: `(nil, t.err)` when `t.err` is set,
else `(t.addresses, nil)`. -/
def testInstance.Addresses (t : testInstance) : List Address × Option Err :=
  match t.err with
  | some e => ([], some e)
  | none => (t.addresses, none)

/-- The method `(*testInstance).Status`. -/
def testInstance.Status (t : testInstance) : String :=
  t.status

/-- The helper `newTestInstance` of `aggregate_test.go`. -/
def newTestInstance (status : String) (addresses : List String) : testInstance :=
  { addresses := NewAddresses addresses, status := status, err := none }

/-- The test double `testInstanceGetter` of `aggregate_test.go`. -/
structure testInstanceGetter where
  ids : List Id
  results : List (Option testInstance)
  err : Option Err
  counter : Nat
deriving DecidableEq, Repr

/-- The value `new(testInstanceGetter)`. -/
def testInstanceGetter.new : testInstanceGetter :=
  { ids := [], results := [], err := none, counter := 0 }

/-- The method `(*testInstanceGetter).Instances`: records the identifiers,
counts the call and returns the configured results and error. -/
def testInstanceGetter.Instances (i : testInstanceGetter) (ids : List Id) :
    (List (Option testInstance) × Option Err) × testInstanceGetter :=
  ((i.results, i.err), { i with ids := ids, counter := i.counter + 1 })

/-! ## Result resolution (specification section 4.4) -/

/-- Modelled from the spec: the per-instance resolution of `aggregate.go`
(specification 4.4).  An absent result gives the not-found error for the
identifier; a present handle has its addresses fetched, and a failed fetch
gives that error with an empty info; otherwise the reply carries the handle's
status and addresses. -/
def resolveInstance (id : Id) (inst : Option testInstance) : instanceInfoReply :=
  match inst with
  | none => { info := instanceInfo.zero, err := some (NotFoundf id) }
  | some h =>
    match h.Addresses with
    | (_, some e) => { info := instanceInfo.zero, err := some e }
    | (addrs, none) => { info := { status := h.Status, addresses := addrs }, err := none }

/-- Modelled from the spec: the hard-batch-error test of `aggregate.go`
(specification 4.4): an error that is not the partial-instances signal. -/
def hardError (err : Option Err) : Option Err :=
  match err with
  | some e => if e = Err.ErrPartialInstances then none else some e
  | none => none

/-- Modelled from the spec: the result entry of `aggregate.go` for position
`i` of the identifier list.  A position with no entry in the returned list
carries no instance handle and counts as absent. -/
def resultAt (results : List (Option testInstance)) (i : Nat) : Option testInstance :=
  results[i]?.join

/-- Modelled from the spec: the reply of `aggregate.go` for the identifier at
position `i` of a sealed batch (specification 4.4): a hard batch error is
passed on as it is, otherwise the entry at position `i` is resolved. -/
def replyFor (results : List (Option testInstance)) (err : Option Err) (i : Nat) (id : Id) :
    instanceInfoReply :=
  match hardError err with
  | some e => { info := instanceInfo.zero, err := some e }
  | none => resolveInstance id (resultAt results i)

/-! ## Batches (specification section 3) -/

/-- Modelled from the spec: the batch of `aggregate.go` (specification 3): the
identifiers of one gather window in order of first arrival, each with the
requests waiting on it. -/
abbrev Batch := List (Id × List instanceInfoReq)

/-- The identifier list of a batch, as passed to the Instance Getter. -/
def Batch.ids (b : Batch) : List Id :=
  b.map Prod.fst

/-- All requests waiting in a batch. -/
def Batch.requests (b : Batch) : List instanceInfoReq :=
  b.flatMap Prod.snd

/-- Modelled from the spec: adding a request to the open batch of
`aggregate.go` (specification 4.3): a new identifier is appended with the
request as its first waiter; a duplicate identifier only gains a waiter. -/
def Batch.add (b : Batch) (req : instanceInfoReq) : Batch :=
  match b with
  | [] => [(req.instId, [req])]
  | (k, ws) :: rest =>
    if k = req.instId then (k, ws ++ [req]) :: rest
    else (k, ws) :: Batch.add rest req

/-- Modelled from the spec: the replies of `aggregate.go` for the entries of a
sealed batch from position `i` on: one reply per waiting request, computed
from the result at the position of its identifier. -/
def deliverFrom (results : List (Option testInstance)) (err : Option Err) :
    Nat → Batch → List (instanceInfoReq × instanceInfoReply)
  | _, [] => []
  | i, (id, ws) :: rest =>
    ws.map (fun w => (w, replyFor results err i id)) ++ deliverFrom results err (i + 1) rest

/-- Modelled from the spec: the replies of `aggregate.go` for a sealed batch. -/
def deliver (b : Batch) (results : List (Option testInstance)) (err : Option Err) :
    List (instanceInfoReq × instanceInfoReply) :=
  deliverFrom results err 0 b

/-- Modelled from the spec: the identifiers of a sealed batch whose instance
handle is queried (`Addresses`, `Status`) by `aggregate.go`, from position `i`
on: none under a hard batch error, else those with a present handle. -/
def queriedFrom (results : List (Option testInstance)) (err : Option Err) :
    Nat → Batch → List Id
  | _, [] => []
  | i, (id, _) :: rest =>
    (if (hardError err).isNone ∧ (resultAt results i).isSome then [id] else [])
      ++ queriedFrom results err (i + 1) rest

/-- Modelled from the spec: the handle queries of `aggregate.go` for a sealed batch. -/
def queried (b : Batch) (results : List (Option testInstance)) (err : Option Err) : List Id :=
  queriedFrom results err 0 b

/-- The reply a request received, looked up by its reply channel. -/
def replyOf (ds : List (instanceInfoReq × instanceInfoReply)) (req : instanceInfoReq) :
    Option instanceInfoReply :=
  (ds.find? (fun d => d.1 = req)).map Prod.snd

/-! ## The coordination loop (specification section 4.3) -/

/-- Modelled from the spec: what `aggregate.go` does with an open batch when
the stop signal arrives.  The specification leaves it open (4.3, 9) and names
two policies: seal and dispatch the batch, or answer its requests with the
stopped error. -/
inductive StopPolicy where
  | sealAndDispatch
  | rejectPending
deriving DecidableEq, Repr

/-- Modelled from the spec: the configuration `aggregate.go` is constructed
with: the Instance Getter, the gather window and the stop policy. -/
structure Config where
  Instances : List Id → List (Option testInstance) × Option Err
  gatherTime : Nat
  onStop : StopPolicy

/-- Modelled from the spec: the two states of the loop of `aggregate.go`
(specification 4.3), and the terminated loop.  The collecting state holds the
open batch, the time of its first request and the deadline of the armed timer. -/
inductive Phase where
  | idle
  | collecting (batch : Batch) (openedAt : Nat) (deadline : Nat)
  | stopped
deriving DecidableEq, Repr

/-- Modelled from the spec: how a batch of `aggregate.go` came to be sealed. -/
inductive SealedBy where
  | timer
  | stop
deriving DecidableEq, Repr

/-- Modelled from the spec: a sealed batch of `aggregate.go`, as logged by the
model: the batch, the arrival time of its first request, the deadline of its
window timer (the time at which the timer fires) and what sealed it. -/
structure SealedBatch where
  batch : Batch
  openedAt : Nat
  deadline : Nat
  sealedBy : SealedBy
deriving DecidableEq, Repr

/-- Modelled from the spec: the state of the loop of `aggregate.go`, with the
logs of its effects: the identifier lists passed to the Instance Getter, the
replies sent, and the batches sealed (each oldest first). -/
structure State where
  phase : Phase
  calls : List (List Id)
  sent : List (instanceInfoReq × instanceInfoReply)
  sealed : List SealedBatch
deriving DecidableEq, Repr

/-- Modelled from the spec: the state of a freshly constructed aggregator of
`aggregate.go`: idle, with nothing called, sent or sealed. -/
def State.init : State :=
  { phase := Phase.idle, calls := [], sent := [], sealed := [] }

/-- Modelled from the spec: the events the loop of `aggregate.go` waits for
(specification 5): a lookup request arriving at a time, the window timer
firing at its deadline, and the stop signal. -/
inductive Event where
  | request (now : Nat) (req : instanceInfoReq)
  | timerFires
  | stop
deriving DecidableEq, Repr

/-- Modelled from the spec: the reply of `aggregate.go` to a request that
cannot be serviced because the aggregator is stopping (specification 7). -/
def stoppedReply : instanceInfoReply :=
  { info := instanceInfo.zero, err := some Err.Stopped }

/-- Modelled from the spec: sealing a batch in `aggregate.go` (specification
4.3, 4.4): one Instance Getter call with the batch's identifier list, then the
replies for every waiting request. -/
def sealBatch (cfg : Config) (s : State) (b : Batch) (openedAt deadline : Nat) (by_ : SealedBy)
    (next : Phase) : State :=
  let r := cfg.Instances b.ids
  { phase := next
    calls := s.calls ++ [b.ids]
    sent := s.sent ++ deliver b r.1 r.2
    sealed := s.sealed ++ [{ batch := b, openedAt := openedAt, deadline := deadline,
                             sealedBy := by_ }] }

/-- Modelled from the spec: one step of the loop of `aggregate.go`
(specification 4.3). -/
def step (cfg : Config) (s : State) (e : Event) : State :=
  match s.phase, e with
  | Phase.idle, Event.request now req =>
    { s with phase := Phase.collecting (Batch.add [] req) now (now + cfg.gatherTime) }
  | Phase.collecting b o d, Event.request _ req =>
    { s with phase := Phase.collecting (Batch.add b req) o d }
  | Phase.stopped, Event.request _ req =>
    { s with sent := s.sent ++ [(req, stoppedReply)] }
  | Phase.collecting b o d, Event.timerFires =>
    sealBatch cfg s b o d SealedBy.timer Phase.idle
  | Phase.idle, Event.timerFires => s
  | Phase.stopped, Event.timerFires => s
  | Phase.idle, Event.stop => { s with phase := Phase.stopped }
  | Phase.collecting b o d, Event.stop =>
    match cfg.onStop with
    | StopPolicy.sealAndDispatch => sealBatch cfg s b o d SealedBy.stop Phase.stopped
    | StopPolicy.rejectPending =>
      { s with phase := Phase.stopped
               sent := s.sent ++ b.requests.map (fun w => (w, stoppedReply)) }
  | Phase.stopped, Event.stop => s

/-- Modelled from the spec: the loop of `aggregate.go` run over a sequence of
events. -/
def run (cfg : Config) (s : State) (es : List Event) : State :=
  es.foldl (step cfg) s

/-- The requests among a sequence of events. -/
def accepted : List Event → List instanceInfoReq
  | [] => []
  | Event.request _ req :: es => req :: accepted es
  | _ :: es => accepted es

/-- The requests still waiting in the open batch. -/
def State.pending (s : State) : List instanceInfoReq :=
  match s.phase with
  | Phase.collecting b _ _ => b.requests
  | _ => []

/-- The Instance Getter given by a test double: its configured results and error. -/
def testInstanceGetter.getter (i : testInstanceGetter) (ids : List Id) :
    List (Option testInstance) × Option Err :=
  (i.Instances ids).1

/-- The test double after the calls logged by the loop. -/
def testInstanceGetter.after (i : testInstanceGetter) (calls : List (List Id)) :
    testInstanceGetter :=
  calls.foldl (fun g ids => (g.Instances ids).2) i

/-- Modelled from the spec: the blocking lookup `instanceInfo` of
`aggregate.go` on an idle aggregator with no other caller: the request is
submitted, the window timer fires and the caller takes its reply. -/
def lookup (cfg : Config) (s : State) (now : Nat) (id : Id) (ch : Nat) :
    Option instanceInfoReply × State :=
  let req : instanceInfoReq := { instId := id, reply := ch }
  let s1 := run cfg s [Event.request now req, Event.timerFires]
  (replyOf (s1.sent.drop s.sent.length) req, s1)

/-- A batch is well formed when its identifiers are pairwise distinct and every
request waits under its own identifier. -/
def Batch.WF (b : Batch) : Prop :=
  b.ids.Nodup ∧ ∀ e ∈ b, ∀ w ∈ e.2, w.instId = e.1

instance (b : Batch) : Decidable b.WF := by
  unfold Batch.WF; infer_instance

/-- The request `w` is sent the reply `r`, and no other reply, among the deliveries `ds`. -/
def Receives (ds : List (instanceInfoReq × instanceInfoReply)) (w : instanceInfoReq)
    (r : instanceInfoReply) : Prop :=
  (w, r) ∈ ds ∧ ∀ d ∈ ds, d.1 = w → d.2 = r

instance (ds : List (instanceInfoReq × instanceInfoReply)) (w : instanceInfoReq)
    (r : instanceInfoReply) : Decidable (Receives ds w r) := by
  unfold Receives; infer_instance

/-- The batch that a window of requests builds, in arrival order. -/
def batchOf (reqs : List instanceInfoReq) : Batch :=
  reqs.foldl Batch.add []


/-- Every identifier of the batch has at least one waiting request. -/
def Batch.Waited (b : Batch) : Prop :=
  ∀ e ∈ b, e.2 ≠ []

instance (b : Batch) : Decidable b.Waited := by
  unfold Batch.Waited; infer_instance

/-- The invariant of the loop: the open batch and every sealed batch are well
formed, non-empty and fully waited on, their timer deadline is the gather
window after their opening, and the Instance Getter was called exactly with
the identifier lists of the sealed batches, in order. -/
def State.Inv (cfg : Config) (s : State) : Prop :=
  (∀ b o d, s.phase = Phase.collecting b o d →
      b.WF ∧ b.Waited ∧ b ≠ [] ∧ d = o + cfg.gatherTime) ∧
  (∀ sb ∈ s.sealed,
      sb.batch.WF ∧ sb.batch.Waited ∧ sb.batch ≠ [] ∧
        sb.deadline = sb.openedAt + cfg.gatherTime) ∧
  s.calls = s.sealed.map (fun sb => sb.batch.ids)

/-- The replies the loop sends on the event `e` in state `s`. -/
def sentBy (cfg : Config) (s : State) (e : Event) : List (instanceInfoReq × instanceInfoReply) :=
  (step cfg s e).sent.drop s.sent.length

/-- The Instance Getter calls the loop makes on the event `e` in state `s`. -/
def callsBy (cfg : Config) (s : State) (e : Event) : List (List Id) :=
  (step cfg s e).calls.drop s.calls.length

/-- The event `e` seals an open batch: the window timer fires, or the stop
signal arrives under the seal-and-dispatch policy. -/
def Seals (cfg : Config) (e : Event) : Prop :=
  e = Event.timerFires ∨ (e = Event.stop ∧ cfg.onStop = StopPolicy.sealAndDispatch)

instance (cfg : Config) (e : Event) : Decidable (Seals cfg e) := by
  unfold Seals; infer_instance

/-- The aggregator of a test: `newAggregator(testGetter)` with the patched
`gatherTime`, under a stop policy. -/
def newAggregator (testGetter : testInstanceGetter) (gatherTime : Nat) (onStop : StopPolicy) :
    Config :=
  { Instances := testGetter.getter, gatherTime := gatherTime, onStop := onStop }

/-- The instance `instance1` of `TestSingleRequest`. -/
def instance1 : testInstance :=
  newTestInstance "foobar" ["127.0.0.1", "192.168.1.1"]

/-- The getter of `TestSingleRequest`. -/
def singleRequestGetter : testInstanceGetter :=
  { testInstanceGetter.new with results := [some instance1] }

/-- The error `ourError` of `TestError`. -/
def ourError : Err :=
  Err.Errorf "Some error"

/-- The getter of `TestError`. -/
def errorGetter : testInstanceGetter :=
  { testInstanceGetter.new with err := some ourError }

/-- The getter of `TestPartialErrResponse`, extended by a present instance for
a second identifier. -/
def partialGetter : testInstanceGetter :=
  { testInstanceGetter.new with
    err := some Err.ErrPartialInstances, results := [none, some instance1] }

/-- The error `ourError` of `TestAddressesError`. -/
def gotcha : Err :=
  Err.Errorf "gotcha"

/-- The getter of `TestAddressesError`, extended by a healthy instance for a
second identifier. -/
def addressesErrorGetter : testInstanceGetter :=
  { testInstanceGetter.new with
    results := [some { instance1 with err := some gotcha },
                some (newTestInstance "ok-ish" ["192.168.1.3"])] }

/-- The instances `instance2` and `instance3` of `TestMultipleResponseHandling`. -/
def instance2 : testInstance :=
  newTestInstance "not foobar" ["192.168.1.2"]

/-- The instance `instance3` of `TestMultipleResponseHandling`. -/
def instance3 : testInstance :=
  newTestInstance "ok-ish" ["192.168.1.3"]

/-- The getter of `TestMultipleResponseHandling` for its second batch. -/
def multipleGetter : testInstanceGetter :=
  { testInstanceGetter.new with results := [some instance2, some instance3] }

/-- A run of two windows: foo, bar and foo again in the first, baz in the second. -/
def twoWindows : List Event :=
  [Event.request 0 ⟨"foo", 0⟩, Event.request 1 ⟨"bar", 1⟩, Event.request 2 ⟨"foo", 2⟩,
   Event.timerFires, Event.request 5 ⟨"baz", 3⟩, Event.timerFires]

/-- The requests of a window as events: each arrival time with its request. -/
def arrivals (rs : List (Nat × instanceInfoReq)) : List Event :=
  rs.map (fun p => Event.request p.1 p.2)

/-! ## Lifecycle and timing of the loop (specification sections 4.1 and 5) -/

/-- Modelled from the spec: `Wait` of `aggregate.go` (specification 4.1,
awaitStopped): it returns once the loop has exited, with the loop's terminal
error, of which the modelled loop has none.  The value `none` means that the
caller is still blocked, `some none` that `Wait` returned a nil error. -/
def Wait (s : State) : Option (Option Err) :=
  match s.phase with
  | Phase.stopped => some none
  | _ => none

/-- The arrival times of the requests among a sequence of events. -/
def requestTimes : List Event → List Nat
  | [] => []
  | Event.request now _ :: es => now :: requestTimes es
  | _ :: es => requestTimes es

/-- Modelled from the spec: the ordering of events in time (specification 5).
The loop of `aggregate.go` handles events in the order of their times: a
request is accepted no earlier than the events before it, and the window
timer fires at its deadline, no earlier than the events before it and only
when it is armed.  The result is the time of the event, `none` when the event
cannot come next at the time `clock`. -/
def admits (s : State) (clock : Nat) (e : Event) : Option Nat :=
  match e with
  | Event.request now _ => if clock ≤ now then some now else none
  | Event.timerFires =>
    match s.phase with
    | Phase.collecting _ _ d => if clock ≤ d then some d else none
    | _ => none
  | Event.stop => some clock

/-- Modelled from the spec: a sequence of events that the loop of
`aggregate.go` can see in this order, from the state `s` at the time `clock`. -/
def wellTimed (cfg : Config) : State → Nat → List Event → Bool
  | _, _, [] => true
  | s, clock, e :: es =>
    match admits s clock e with
    | some clock' => wellTimed cfg (step cfg s e) clock' es
    | none => false

/-- The scenario of `TestBatching`, shortened: requests for "foo" one time
unit apart, with a window of 10, the timer firing at its deadlines 10 and 20. -/
def batchingEvents : List Event :=
  (List.range 10).map (fun i => Event.request i ⟨"foo", i⟩) ++ [Event.timerFires] ++
    (List.range 10).map (fun i => Event.request (10 + i) ⟨"foo", 10 + i⟩) ++ [Event.timerFires] ++
    [Event.request 20 ⟨"foo", 20⟩]

/-- The getter of `TestBatching`: a hundred instances "foobar". -/
def batchingGetter : testInstanceGetter :=
  { testInstanceGetter.new with results := List.replicate 100 (some instance1) }

/-- The timing invariant of the loop for requests arriving between the times
`t0` and `t0 + T`: sealed batches were opened at least a window apart, so all
but the last of them fit into `T`; an open batch was opened after a window
for each sealed one; and in the idle state that much time has passed. -/
def TimedInv (cfg : Config) (t0 T : Nat) (s : State) (clock : Nat) : Prop :=
  (s.sealed.length - 1) * cfg.gatherTime ≤ T ∧
    match s.phase with
    | Phase.collecting _ o _ => t0 + s.sealed.length * cfg.gatherTime ≤ o ∧ o ≤ t0 + T
    | Phase.idle => t0 + s.sealed.length * cfg.gatherTime ≤ clock
    | Phase.stopped => True

end InstancePoller

/-! Instance specifications (environs/instances/image.go).

`FindInstanceSpec`, `preferredSpec` and `Image.match` are translated from
`image.go`.  The instance types and their selection by constraints
(`instancetype.go`), the packages `constraints` and `juju/arch` and Go's
formatting verb `%q` are not among the sources; they are taken as parameters. -/

namespace Instances

/-- The type `constraints.Value` (package `constraints` is not among the
sources), reduced to the field `FindInstanceSpec` reads: the instance type
name, a nil pointer when absent. -/
structure Value where
  InstanceType : Option String
deriving DecidableEq, Repr

/-- The type `InstanceType` (declared in `instancetype.go`, not among the
sources), reduced to the fields `image.go` reads: the name, the architectures
and the optional virtualisation type. -/
structure InstanceType where
  Name : String
  Arches : List String
  VirtType : Option String
deriving DecidableEq, Repr

/-- The record `InstanceConstraint` of `image.go`. -/
structure InstanceConstraint where
  Region : String
  Series : String
  Arches : List String
  Constraints : Value
  Storage : Option String
deriving DecidableEq, Repr

/-- The record `Image` of `image.go`. -/
structure Image where
  Id : String
  Arch : String
  VirtType : String
deriving DecidableEq, Repr

/-- The record `InstanceSpec` of `image.go`. -/
structure InstanceSpec where
  InstanceType : InstanceType
  Image : Image
deriving DecidableEq, Repr

/-- What `image.go` uses and the sources do not hold: the method
`constraints.Value.HasInstanceType`, the function `getMatchingInstanceTypes`
(its result list and its error), the function `arch.HostArch`, the method
`constraints.Value.String`, and Go's verb `%q` on a string. -/
structure Deps where
  HasInstanceType : Value → Bool
  getMatchingInstanceTypes : InstanceConstraint → List InstanceType →
    List InstanceType × Option String
  HostArch : String
  ValueString : Value → String
  Quote : String → String

/-- Go's verbs `%s` and `%v` on a slice of strings: the elements separated by
blanks, in square brackets. -/
def fmtStrings (xs : List String) : String :=
  "[" ++ " ".intercalate xs ++ "]"

/-- The method `(*InstanceConstraint).String` of `image.go`. -/
def InstanceConstraint.String (deps : Deps) (ic : InstanceConstraint) : String :=
  let storage := match ic.Storage with
    | some s => s
    | none => "none"
  "\x7bregion: " ++ ic.Region ++ ", series: " ++ ic.Series ++ ", arches: " ++
    fmtStrings ic.Arches ++ ", constraints: " ++ deps.ValueString ic.Constraints ++
    ", storage: " ++ storage ++ "\x7d"

/-- The method `Image.match` of `image.go`: the image can run on the instance
type when the type's virtualisation type is nil or the image's, and the
image's architecture is among the type's. -/
def Image.matches (image : Image) (itype : InstanceType) : Bool :=
  match itype.VirtType with
  | some v => if image.VirtType ≠ v then false else itype.Arches.any (fun a => a = image.Arch)
  | none => itype.Arches.any (fun a => a = image.Arch)

/-- The function `preferredSpec` of `image.go`: among several specs the first
whose image has the host's architecture, else the first spec, nil if none. -/
def preferredSpec (hostArch : String) (specs : List InstanceSpec) : Option InstanceSpec :=
  match (if 1 < specs.length then specs.find? (fun spec => spec.Image.Arch = hostArch)
         else none) with
  | some spec => some spec
  | none => if 0 < specs.length then specs[0]? else none

/-- The selection of `matchingTypes` in `FindInstanceSpec` (`image.go`, lines
60 to 77): with an instance type constraint, the first instance type of that
name alone, or the error of an invalid instance type; otherwise the result of
`getMatchingInstanceTypes`.  The value `none` is the run-time panic of
dereferencing a nil instance type name. -/
def matchingTypes (deps : Deps) (ic : InstanceConstraint) (allInstanceTypes : List InstanceType) :
    Option (List InstanceType × Option String) :=
  if deps.HasInstanceType ic.Constraints then
    match ic.Constraints.InstanceType with
    | none => none
    | some name =>
      match allInstanceTypes.find? (fun itype => itype.Name = name) with
      | some itype => some ([itype], none)
      | none => some ([], some ("invalid instance type " ++ deps.Quote name))
  else
    some (deps.getMatchingInstanceTypes ic allInstanceTypes)

/-- The specs `FindInstanceSpec` collects: for each matching type in order,
each possible image in order that matches it. -/
def candidateSpecs (matching : List InstanceType) (possibleImages : List Image) :
    List InstanceSpec :=
  matching.flatMap (fun itype =>
    (possibleImages.filter (fun image => image.matches itype)).map
      (fun image => { InstanceType := itype, Image := image }))

/-- The function `FindInstanceSpec` of `image.go`.  The result is the pair of
the spec and the error that Go returns, `none` when the call panics. -/
def FindInstanceSpec (deps : Deps) (possibleImages : List Image) (ic : InstanceConstraint)
    (allInstanceTypes : List InstanceType) : Option (Option InstanceSpec × Option String) :=
  if possibleImages.length = 0 then
    some (none, some ("no " ++ deps.Quote ic.Series ++ " images in " ++ ic.Region ++
      " with arches " ++ fmtStrings ic.Arches))
  else
    match matchingTypes deps ic allInstanceTypes with
    | none => none
    | some (_, some err) => some (none, some err)
    | some (matching, none) =>
      if matching.length = 0 then
        some (none, some ("no instance types found matching constraint: " ++ ic.String deps))
      else
        match preferredSpec deps.HostArch (candidateSpecs matching possibleImages) with
        | some spec => some (some spec, none)
        | none =>
          some (none, some ("no " ++ deps.Quote ic.Series ++ " images in " ++ ic.Region ++
            " matching instance types " ++
            fmtStrings (matching.map (fun itype => itype.Name))))

/-- Test dependencies: an instance type constraint is a non-nil, non-empty
name, no selection by other constraints, host architecture amd64, and `%q`
on strings that need no escaping. -/
def testDeps : Deps :=
  { HasInstanceType := fun v => v.InstanceType.isSome && v.InstanceType != some ""
    getMatchingInstanceTypes := fun _ all => (all, none)
    HostArch := "amd64"
    ValueString := fun v => match v.InstanceType with
      | some n => "instance-type=" ++ n
      | none => ""
    Quote := fun s => "\"" ++ s ++ "\"" }

/-- The instance constraint of an error case of `TestFindInstanceSpecErrors`. -/
def testConstraint (series : String) (arches : List String) (cons : Value) :
    InstanceConstraint :=
  { Region := "test", Series := series, Arches := arches, Constraints := cons, Storage := none }

/-- Two instance types in the manner of the ec2 test data. -/
def testTypes : List InstanceType :=
  [{ Name := "m1.small", Arches := ["amd64", "i386"], VirtType := some "paravirtual" },
   { Name := "cc1.4xlarge", Arches := ["amd64"], VirtType := some "hvm" }]

/-- Three images in the manner of the ec2 test data. -/
def testImages : List Image :=
  [{ Id := "ami-01000034", Arch := "i386", VirtType := "paravirtual" },
   { Id := "ami-01000033", Arch := "amd64", VirtType := "paravirtual" },
   { Id := "ami-01000035", Arch := "amd64", VirtType := "hvm" }]

end Instances

/-! Environment commands (cmd/envcmd/environmentcommand.go).

`EnsureEnvName`, `ReadCurrentEnvironment` and `WriteCurrentEnvironment` are
translated from `environmentcommand.go`, with the file
`$JUJU_HOME/current-environment` as explicit state.  The function
`environs.ReadEnvirons`, the function `osenv.JujuHome` and the operating
system's verdict on a write are taken as parameters. -/

namespace EnvCmd

/-- Go `error` values of the package: the variable `ErrNoEnvironmentSpecified`
and any other error, given by its message. -/
inductive Error where
  | ErrNoEnvironmentSpecified
  | Errorf (msg : String)
deriving DecidableEq, Repr

/-- The type `environs.Environs` (package `environs` is not among the
sources), reduced to the field `EnsureEnvName` reads. -/
structure Environs where
  Default : String
deriving DecidableEq, Repr

/-- The record `EnvCommandBase` of `environmentcommand.go`. -/
structure EnvCommandBase where
  EnvName : String
deriving DecidableEq, Repr

/-- The method `(*EnvCommandBase).EnsureEnvName`.  The function
`environs.ReadEnvirons` is a parameter; the result is the error returned, the
command afterwards and the paths `ReadEnvirons` was called with. -/
def EnvCommandBase.EnsureEnvName (ReadEnvirons : String → Except Error Environs)
    (c : EnvCommandBase) : Option Error × EnvCommandBase × List String :=
  if c.EnvName = "" then
    match ReadEnvirons "" with
    | Except.error err => (some err, c, [""])
    | Except.ok envs =>
      if envs.Default = "" then (some Error.ErrNoEnvironmentSpecified, c, [""])
      else (none, { c with EnvName := envs.Default }, [""])
  else (none, c, [])

/-- The state of the file `$JUJU_HOME/current-environment`: missing or
unreadable, or holding data. -/
inductive EnvFile where
  | unreadable
  | holds (data : String)
deriving DecidableEq, Repr

/-- Go's `unicode.IsSpace`: the white space characters of Unicode. -/
def isSpace (c : Char) : Bool :=
  let n := c.toNat
  (9 ≤ n ∧ n ≤ 13) ∨ n = 32 ∨ n = 133 ∨ n = 160 ∨ n = 5760 ∨ (8192 ≤ n ∧ n ≤ 8202) ∨
    n = 8232 ∨ n = 8233 ∨ n = 8239 ∨ n = 8287 ∨ n = 12288

/-- The characters of a string without its leading white space. -/
def trimLeft (l : List Char) : List Char :=
  l.dropWhile isSpace

/-- The characters of a string without its trailing white space. -/
def trimRight (l : List Char) : List Char :=
  (l.reverse.dropWhile isSpace).reverse

/-- Go's `strings.TrimSpace`, on a string taken as its sequence of characters. -/
def TrimSpace (s : String) : String :=
  String.mk (trimRight (trimLeft s.data))

/-- What the file functions use and the sources do not hold: the Juju home
directory (`osenv.JujuHome`), Go's `filepath.Join` and Go's verb `%q`. -/
structure Os where
  JujuHome : String
  Join : String → String → String
  Quote : String → String

/-- The constant `CurrentEnvironmentFilename`. -/
def CurrentEnvironmentFilename : String :=
  "current-environment"

/-- The function `getCurrentEnvironmentFilePath`. -/
def getCurrentEnvironmentFilePath (os : Os) : String :=
  os.Join os.JujuHome CurrentEnvironmentFilename

/-- The function `ReadCurrentEnvironment`: the trimmed data of the file, the
empty string when the file cannot be read. -/
def ReadCurrentEnvironment (f : EnvFile) : String :=
  match f with
  | EnvFile.unreadable => ""
  | EnvFile.holds current => TrimSpace current

/-- The function `WriteCurrentEnvironment`.  The parameter `fault` is the
verdict of `ioutil.WriteFile`: `none` when the write succeeds, else its error
and the state it leaves the file in.  The result is the error returned and
the file afterwards. -/
def WriteCurrentEnvironment (os : Os) (fault : Option (String × EnvFile)) (_f : EnvFile)
    (envName : String) : Option String × EnvFile :=
  let path := getCurrentEnvironmentFilePath os
  match fault with
  | some (err, left) =>
    (some ("unable to write to the environment file: " ++ os.Quote path ++ ", " ++ err), left)
  | none => (none, EnvFile.holds (envName ++ "\n"))

/-- A test system: home directory /home/ubuntu/.juju. -/
def testOs : Os :=
  { JujuHome := "/home/ubuntu/.juju"
    Join := fun a b => a ++ "/" ++ b
    Quote := fun s => "\"" ++ s ++ "\"" }

end EnvCmd

/-! The shared secret of the replica set (agent/mongo/mongo.go).

`GenerateSharedSecret` is translated from `mongo.go`; Go's standard base64
encoding is written out, and the random source is a parameter. -/

namespace Mongo

/-- The alphabet of Go's `base64.StdEncoding`. -/
def encodeStd : List Char :=
  "ABCDEFGHIJKLMNOPQRSTUVWXYZabcdefghijklmnopqrstuvwxyz0123456789+/".data

/-- The character `enc.encode[v & 0x3F]` of Go's `base64.StdEncoding`. -/
def encodeChar (v : Nat) : Char :=
  encodeStd.getD (v % 64) 'A'

/-- Go's `base64.StdEncoding.EncodeToString` on a list of bytes: four
characters for every three bytes, the rest padded with `=`. -/
def EncodeToString : List Nat → List Char
  | b0 :: b1 :: b2 :: rest =>
    let val := b0 * 65536 + b1 * 256 + b2
    encodeChar (val / 262144) :: encodeChar (val / 4096) :: encodeChar (val / 64) ::
      encodeChar val :: EncodeToString rest
  | [b0, b1] =>
    let val := b0 * 65536 + b1 * 256
    [encodeChar (val / 262144), encodeChar (val / 4096), encodeChar (val / 64), '=']
  | [b0] =>
    let val := b0 * 65536
    [encodeChar (val / 262144), encodeChar (val / 4096), '=', '=']
  | [] => []

/-- Go's `base64.StdEncoding.DecodedLen`. -/
def DecodedLen (n : Nat) : Nat :=
  n / 4 * 3

/-- The random source `crypto/rand`: the byte it yields for each position of
the buffer, and the error of `rand.Read`, if any. -/
structure RandReader where
  next : Nat → Nat
  err : Option String

/-- The function `GenerateSharedSecret` of `mongo.go`. -/
def GenerateSharedSecret (rand : RandReader) : String × Option String :=
  let buf := (List.range (DecodedLen 1024)).map (fun i => rand.next i % 256)
  match rand.err with
  | some err => ("", some ("cannot read random secret: " ++ err))
  | none => (String.mk (EncodeToString buf), none)

/-- A random source for tests: the position itself as the byte. -/
def countingReader : RandReader :=
  { next := fun i => i, err := none }

end Mongo

namespace InstancePoller

/-- The scenario of `TestMultipleResponseHandling`: a lookup of "foo" is
answered, then lookups of foo2 and foo3 arrive in one window. -/
def multipleResponseEvents : List Event :=
  [Event.request 0 ⟨"foo", 0⟩, Event.timerFires,
   Event.request 40 ⟨"foo2", 1⟩, Event.request 41 ⟨"foo3", 2⟩, Event.timerFires]

/-- The state `t` with its logs appended to the logs of `s0`: what the loop
has logged before does not enter its steps. -/
def State.onto (s0 t : State) : State :=
  { phase := t.phase, calls := s0.calls ++ t.calls, sent := s0.sent ++ t.sent,
    sealed := s0.sealed ++ t.sealed }

end InstancePoller

namespace Instances

/-- The type `imagemetadata.ImageMetadata` (package `imagemetadata` is not
among the sources), reduced to the fields `ImageMetadataToImages` reads. -/
structure ImageMetadata where
  Id : String
  VirtType : String
  Arch : String
deriving DecidableEq, Repr

/-- The function `ImageMetadataToImages` of `image.go`, on a list of pointers:
`none` in the list is a nil pointer, and the result `none` is the run-time
panic of dereferencing one. -/
def ImageMetadataToImages : List (Option ImageMetadata) → Option (List Image)
  | [] => some []
  | none :: _ => none
  | some input :: rest =>
    (ImageMetadataToImages rest).map (fun result =>
      { Id := input.Id, VirtType := input.VirtType, Arch := input.Arch } :: result)

end Instances

/-! Commands of the juju client (cmd/juju/bootstrap.go, cmd/juju/destroyunit.go).

The methods `Init` are translated from the sources.  The embedded
`EnvCommandBase.Init`, `instance.ParsePlacement`, `cmd.CheckEmpty`,
`names.IsUnit` and Go's verb `%q` are not among the sources; they are taken as
parameters. -/

namespace Juju

/-- Go `error` values seen by `BootstrapCommand.Init`: the variable
`instance.ErrPlacementScopeMissing` and any other error, given by its message. -/
inductive Error where
  | ErrPlacementScopeMissing
  | Errorf (msg : String)
deriving DecidableEq, Repr

/-- The record `BootstrapCommand` of `bootstrap.go`, reduced to the fields
`Init` reads. -/
structure BootstrapCommand where
  UploadTools : Bool
  Series : List String
  Placement : String
deriving DecidableEq, Repr

/-- What `BootstrapCommand.Init` uses and the sources do not hold: the result
of the embedded `EnvCommandBase.Init`, the error of `instance.ParsePlacement`
(nil when the directive parses), `cmd.CheckEmpty` and Go's verb `%q`. -/
structure BootstrapDeps where
  EnvCommandBaseInit : Option Error
  ParsePlacement : String → Option Error
  CheckEmpty : List String → Option Error
  Quote : String → String

/-- The method `(*BootstrapCommand).Init` of `bootstrap.go`. -/
def BootstrapCommand.Init (deps : BootstrapDeps) (c : BootstrapCommand) (args : List String) :
    Option Error :=
  match deps.EnvCommandBaseInit with
  | some err => some err
  | none =>
    if 0 < c.Series.length ∧ ¬ c.UploadTools then
      some (Error.Errorf "--series requires --upload-tools")
    else if c.Placement ≠ "" ∧ deps.ParsePlacement c.Placement ≠
        some Error.ErrPlacementScopeMissing then
      some (Error.Errorf ("unsupported bootstrap placement directive " ++
        deps.Quote c.Placement))
    else deps.CheckEmpty args

/-- Test dependencies of `BootstrapCommand.Init`: the base `Init` succeeds, a
directive without a colon lacks its scope and any other one parses,
`CheckEmpty` rejects any argument, and `%q` on strings that need no escaping. -/
def testBootstrapDeps : BootstrapDeps :=
  { EnvCommandBaseInit := none
    ParsePlacement := fun p =>
      if p.data.contains ':' then none else some Error.ErrPlacementScopeMissing
    CheckEmpty := fun args =>
      if args.length = 0 then none else some (Error.Errorf "unrecognized args")
    Quote := fun s => "\"" ++ s ++ "\"" }

/-- The record `DestroyUnitCommand` of `destroyunit.go`. -/
structure DestroyUnitCommand where
  UnitNames : List String
deriving DecidableEq, Repr

/-- The first name of the list that is not a unit name, as the loop of
`DestroyUnitCommand.Init` finds it. -/
def firstInvalid (IsUnit : String → Bool) : List String → Option String
  | [] => none
  | name :: rest => if ¬ IsUnit name then some name else firstInvalid IsUnit rest

/-- The method `(*DestroyUnitCommand).Init` of `destroyunit.go`.  The function
`names.IsUnit` and Go's verb `%q` are parameters; the result is the message of
the error returned and the command afterwards. -/
def DestroyUnitCommand.Init (IsUnit : String → Bool) (Quote : String → String)
    (_c : DestroyUnitCommand) (args : List String) : Option String × DestroyUnitCommand :=
  let c : DestroyUnitCommand := { UnitNames := args }
  if c.UnitNames.length = 0 then (some "no units specified", c)
  else
    match firstInvalid IsUnit c.UnitNames with
    | some name => (some ("invalid unit name " ++ Quote name), c)
    | none => (none, c)

/-- A test version of `names.IsUnit`: a name with a slash. -/
def testIsUnit (name : String) : Bool :=
  name.data.contains '/'

end Juju

/-! Addresses of the API servers (state/api/state.go).

`addAddress` is translated from `state.go`.  The types and functions of the
package `instance` and Go's `net.SplitHostPort` and `strconv.Atoi` are not
among the sources; they are taken as parameters. -/

namespace Api

/-- The type `instance.Address` (package `instance` is not among the sources),
with the fields `addAddress` sets and the network name it leaves empty; the
field `Type` is written `Type_`. -/
structure Address where
  Value : String
  Type_ : String
  NetworkName : String
  NetworkScope : String
deriving DecidableEq, Repr

/-- The type `instance.HostPort`: an address and a port. -/
structure HostPort where
  Address : Address
  Port : Int
deriving DecidableEq, Repr

/-- What `addAddress` uses and the sources do not hold: the method
`HostPort.NetAddr`, the function `instance.DeriveAddressType`, the constant
`instance.NetworkUnknown`, and Go's `net.SplitHostPort` and `strconv.Atoi`. -/
structure Deps where
  NetAddr : HostPort → String
  DeriveAddressType : String → String
  NetworkUnknown : String
  SplitHostPort : String → Except String (String × String)
  Atoi : String → Except String Int

/-- The function `addAddress` of `state.go`.  An error stands for the pair of
a nil list and that error. -/
def addAddress (deps : Deps) (servers : List (List HostPort)) (addr : String) :
    Except String (List (List HostPort)) :=
  if servers.any (fun server => server.any (fun hostPort => deps.NetAddr hostPort = addr)) then
    Except.ok servers
  else
    match deps.SplitHostPort addr with
    | Except.error err => Except.error err
    | Except.ok (host, portString) =>
      match deps.Atoi portString with
      | Except.error err => Except.error err
      | Except.ok port =>
        let hostPort : HostPort :=
          { Address := { Value := host, Type_ := deps.DeriveAddressType host,
                         NetworkName := "", NetworkScope := deps.NetworkUnknown },
            Port := port }
        Except.ok (servers ++ [[hostPort]])

/-- Test dependencies of `addAddress`: addresses are joined with a colon, the
only address that splits is "localhost:1234", and "1234" is the only integer. -/
def testDeps : Deps :=
  { NetAddr := fun hp => hp.Address.Value ++ ":" ++ toString hp.Port
    DeriveAddressType := fun _ => "hostname"
    NetworkUnknown := ""
    SplitHostPort := fun addr =>
      if addr = "localhost:1234" then Except.ok ("localhost", "1234")
      else Except.error "missing port in address"
    Atoi := fun s => if s = "1234" then Except.ok 1234 else Except.error "invalid syntax" }

end Api

/-! Test helpers for MongoDB (testing/mgo.go).

`readLastLines` is translated from `mgo.go`; the reader is given by the lines
its scanner yields and the scanner's error. -/

namespace Testing

/-- Go's `strings.TrimRight(s, "\n")`: the string without its trailing
newline characters. -/
def trimRightNewline (s : String) : String :=
  String.mk (s.data.reverse.dropWhile (fun c => c = '\n')).reverse

/-- One pass of the scanning loop of `readLastLines`: a non-empty line goes
into the ring of `n` lines at position `i % n` and is counted.  The value
`none` is the run-time panic of the division by zero when `n` is zero. -/
def scanStep (n : Nat) (st : Option (List String × Nat)) (text : String) :
    Option (List String × Nat) :=
  match st with
  | none => none
  | some (lines, i) =>
    let line := trimRightNewline text
    if line ≠ "" then
      if n = 0 then none else some (lines.set (i % n) line, i + 1)
    else some (lines, i)

/-- The function `readLastLines` of `mgo.go`.  The reader is given by the
lines `texts` its scanner yields and by the scanner's error `scanErr`; the
result `none` is a run-time panic. -/
def readLastLines (texts : List String) (scanErr : Option String) (n : Nat) :
    Option (List String) :=
  match texts.foldl (scanStep n) (some (List.replicate n "", 0)) with
  | none => none
  | some (lines, i) =>
    match scanErr with
    | some _ => none
    | none =>
      let final : List String :=
        if n < i then ["[" ++ toString (i - n) ++ " lines omitted]"] else []
      some (final ++
        ((List.range n).map (fun j => lines.getD ((j + i) % n) "")).filter
          (fun line => line ≠ ""))

/-- The non-empty lines of an input, in order. -/
def nonEmptyLines (texts : List String) : List String :=
  (texts.map trimRightNewline).filter (fun line => line ≠ "")

/-- The ring and the count of `readLastLines` after one more non-empty line. -/
def push (n : Nat) (st : List String × Nat) (line : String) : List String × Nat :=
  (st.1.set (st.2 % n) line, st.2 + 1)

/-- The last `n` of the lines `ls` in order, after blanks for the lines that
are lacking: what the ring of `readLastLines` holds, read from its oldest
position. -/
def window (n : Nat) (ls : List String) : List String :=
  List.replicate (n - ls.length) "" ++ ls.drop (ls.length - n)

/-- The marker of `readLastLines` for `k` omitted lines. -/
def omitted (k : Nat) : String :=
  "[" ++ toString k ++ " lines omitted]"

end Testing

namespace InstancePoller


/-! ## Lemmas on batches and deliveries -/

theorem requests_cons (id : Id) (ws : List instanceInfoReq) (rest : Batch) :
    Batch.requests ((id, ws) :: rest) = ws ++ Batch.requests rest := by
  simp [Batch.requests]

theorem deliverFrom_map_fst (results : List (Option testInstance)) (err : Option Err)
    (b : Batch) : ∀ i, (deliverFrom results err i b).map Prod.fst = b.requests := by
  induction b with
  | nil => intro i; simp [deliverFrom, Batch.requests]
  | cons e rest ih =>
    intro i
    obtain ⟨id, ws⟩ := e
    simp [deliverFrom, requests_cons, ih (i + 1), Function.comp_def]

theorem mem_deliverFrom (results : List (Option testInstance)) (err : Option Err)
    (b : Batch) : ∀ (i : Nat) (d : instanceInfoReq × instanceInfoReply),
      d ∈ deliverFrom results err i b ↔
        ∃ j id ws, b[j]? = some (id, ws) ∧ d.1 ∈ ws ∧ d.2 = replyFor results err (i + j) id := by
  induction b with
  | nil => intro i d; simp [deliverFrom]
  | cons e rest ih =>
    intro i d
    obtain ⟨id, ws⟩ := e
    simp only [deliverFrom, List.mem_append, List.mem_map, ih (i + 1)]
    constructor
    · rintro (⟨w, hw, rfl⟩ | ⟨j, id', ws', hj, hd, hr⟩)
      · exact ⟨0, id, ws, by simp, hw, by simp⟩
      · refine ⟨j + 1, id', ws', by simpa using hj, hd, ?_⟩
        rw [hr]; congr 1; omega
    · rintro ⟨j, id', ws', hj, hd, hr⟩
      cases j with
      | zero =>
        simp at hj
        obtain ⟨rfl, rfl⟩ := hj
        left
        exact ⟨d.1, hd, by rw [Prod.ext_iff]; simp [hr]⟩
      | succ j =>
        right
        refine ⟨j, id', ws', by simpa using hj, hd, ?_⟩
        rw [hr]; congr 1; omega

theorem mem_deliver (b : Batch) (results : List (Option testInstance)) (err : Option Err)
    (d : instanceInfoReq × instanceInfoReply) :
    d ∈ deliver b results err ↔
      ∃ j id ws, b[j]? = some (id, ws) ∧ d.1 ∈ ws ∧ d.2 = replyFor results err j id := by
  simp [deliver, mem_deliverFrom]

theorem ids_getElem? (b : Batch) (j : Nat) (id : Id) (ws : List instanceInfoReq)
    (h : b[j]? = some (id, ws)) : b.ids[j]? = some id := by
  simp [Batch.ids, List.getElem?_map, h]

theorem wf_position (b : Batch) (hwf : b.WF) (i j : Nat) (id id' : Id)
    (ws ws' : List instanceInfoReq) (w : instanceInfoReq)
    (hi : b[i]? = some (id, ws)) (hj : b[j]? = some (id', ws'))
    (hw : w ∈ ws) (hw' : w ∈ ws') : j = i ∧ id' = id := by
  have e1 : w.instId = id := hwf.2 (id, ws) (List.getElem?_mem hi) w hw
  have e2 : w.instId = id' := hwf.2 (id', ws') (List.getElem?_mem hj) w hw'
  have hid : id' = id := by rw [← e1, ← e2]
  subst hid
  have h1 := ids_getElem? b i id' ws hi
  have h2 := ids_getElem? b j id' ws' hj
  obtain ⟨hlt1, h1⟩ := List.getElem?_eq_some_iff.mp h1
  obtain ⟨hlt2, h2⟩ := List.getElem?_eq_some_iff.mp h2
  have := (@List.Nodup.getElem_inj_iff _ _ hwf.1 j hlt2 i hlt1).mp (by rw [h1, h2])
  exact ⟨this, rfl⟩

/-- In a well-formed sealed batch every waiter of the identifier at position
`i` is sent the reply computed for position `i`, and no other reply. -/
theorem receives_of_wf (b : Batch) (hwf : b.WF) (results : List (Option testInstance))
    (err : Option Err) (i : Nat) (id : Id) (ws : List instanceInfoReq) (w : instanceInfoReq)
    (hi : b[i]? = some (id, ws)) (hw : w ∈ ws) :
    Receives (deliver b results err) w (replyFor results err i id) := by
  refine ⟨(mem_deliver b results err _).mpr ⟨i, id, ws, hi, hw, rfl⟩, ?_⟩
  intro d hd hdw
  obtain ⟨j, id', ws', hj, hdj, hr⟩ := (mem_deliver b results err d).mp hd
  rw [hdw] at hdj
  obtain ⟨rfl, rfl⟩ := wf_position b hwf i j id id' ws ws' w hi hj hw hdj
  exact hr


/-! ## Lemmas on adding to a batch -/

theorem ids_add (b : Batch) (req : instanceInfoReq) :
    (Batch.add b req).ids = if req.instId ∈ b.ids then b.ids else b.ids ++ [req.instId] := by
  induction b with
  | nil => simp [Batch.add, Batch.ids]
  | cons e rest ih =>
    obtain ⟨k, ws⟩ := e
    by_cases hk : k = req.instId
    · simp [Batch.add, Batch.ids, hk]
    · have hk' : ¬ req.instId = k := fun h => hk h.symm
      simp only [Batch.ids] at ih
      by_cases hm : req.instId ∈ List.map Prod.fst rest
      · simp [Batch.add, Batch.ids, hk, hk', hm, ih]
      · simp [Batch.add, Batch.ids, hk, hk', hm, ih]

theorem add_ne_nil (b : Batch) (req : instanceInfoReq) : Batch.add b req ≠ [] := by
  cases b with
  | nil => simp [Batch.add]
  | cons e rest =>
    obtain ⟨k, ws⟩ := e
    by_cases hk : k = req.instId <;> simp [Batch.add, hk]

theorem add_waiters_own (b : Batch) (req : instanceInfoReq)
    (h : ∀ e ∈ b, ∀ w ∈ e.2, w.instId = e.1) :
    ∀ e ∈ Batch.add b req, ∀ w ∈ e.2, w.instId = e.1 := by
  induction b with
  | nil =>
    intro e he w hw
    simp [Batch.add] at he
    subst he
    simp at hw
    simp [hw]
  | cons e0 rest ih =>
    obtain ⟨k, ws⟩ := e0
    have hrest : ∀ e ∈ rest, ∀ w ∈ e.2, w.instId = e.1 :=
      fun e he => h e (List.mem_cons_of_mem _ he)
    have hhead : ∀ w ∈ ws, w.instId = k := h (k, ws) (List.mem_cons_self _ _)
    intro e he w hw
    by_cases hk : k = req.instId
    · simp only [Batch.add, hk, if_true, List.mem_cons] at he
      rcases he with rfl | he
      · simp only [List.mem_append, List.mem_singleton] at hw
        rcases hw with hw | rfl
        · rw [hhead w hw, hk]
        · rfl
      · exact hrest e he w hw
    · simp only [Batch.add, hk, if_false, List.mem_cons] at he
      rcases he with rfl | he
      · exact hhead w hw
      · exact ih hrest e he w hw

theorem add_wf (b : Batch) (req : instanceInfoReq) (hwf : b.WF) : (Batch.add b req).WF := by
  refine ⟨?_, add_waiters_own b req hwf.2⟩
  rw [ids_add]
  by_cases hm : req.instId ∈ b.ids
  · simpa [hm] using hwf.1
  · simp only [hm, if_false]
    exact List.Nodup.append hwf.1 (List.nodup_singleton _) (by simpa using hm)

theorem wf_nil : Batch.WF [] := by
  simp [Batch.WF, Batch.ids]

theorem requests_add_perm (b : Batch) (req : instanceInfoReq) :
    (Batch.add b req).requests.Perm (b.requests ++ [req]) := by
  induction b with
  | nil => simp [Batch.add, Batch.requests]
  | cons e rest ih =>
    obtain ⟨k, ws⟩ := e
    by_cases hk : k = req.instId
    · simp only [Batch.add, hk, if_true, requests_cons]
      rw [List.append_assoc, List.append_assoc]
      exact List.Perm.append_left _ List.perm_append_comm
    · simp only [Batch.add, hk, if_false, requests_cons, List.append_assoc]
      exact List.Perm.append_left _ ih

theorem batchOf_snoc (reqs : List instanceInfoReq) (req : instanceInfoReq) :
    batchOf (reqs ++ [req]) = Batch.add (batchOf reqs) req := by
  simp [batchOf, List.foldl_append]

theorem batchOf_wf (reqs : List instanceInfoReq) : (batchOf reqs).WF := by
  induction reqs using List.reverseRecOn with
  | nil => exact wf_nil
  | append_singleton reqs req ih => rw [batchOf_snoc]; exact add_wf _ _ ih

theorem batchOf_requests_perm (reqs : List instanceInfoReq) :
    (batchOf reqs).requests.Perm reqs := by
  induction reqs using List.reverseRecOn with
  | nil => simp [batchOf, Batch.requests]
  | append_singleton reqs req ih =>
    rw [batchOf_snoc]
    exact (requests_add_perm _ _).trans (List.Perm.append_right _ ih)

/-- Every identifier of a well-formed batch's requests is among its identifiers. -/
theorem mem_ids_of_mem_requests (b : Batch) (hwf : b.WF) (w : instanceInfoReq)
    (hw : w ∈ b.requests) : w.instId ∈ b.ids := by
  simp only [Batch.requests, List.mem_flatMap] at hw
  obtain ⟨e, he, hwe⟩ := hw
  rw [hwf.2 e he w hwe]
  exact List.mem_map_of_mem _ he


/-! ## Invariants of the loop -/

theorem add_waited (b : Batch) (req : instanceInfoReq) (h : b.Waited) :
    (Batch.add b req).Waited := by
  induction b with
  | nil =>
    intro e he
    simp [Batch.add] at he
    subst he
    simp
  | cons e0 rest ih =>
    obtain ⟨k, ws⟩ := e0
    have hrest : Batch.Waited rest := fun e he => h e (List.mem_cons_of_mem _ he)
    intro e he
    by_cases hk : k = req.instId
    · simp only [Batch.add, hk, if_true, List.mem_cons] at he
      rcases he with rfl | he
      · simp
      · exact hrest e he
    · simp only [Batch.add, hk, if_false, List.mem_cons] at he
      rcases he with rfl | he
      · exact h (k, ws) (List.mem_cons_self _ _)
      · exact ih hrest e he

theorem init_inv (cfg : Config) : State.Inv cfg State.init := by
  refine ⟨?_, ?_, ?_⟩
  · intro b o d h; simp [State.init] at h
  · intro sb h; simp [State.init] at h
  · simp [State.init]

theorem sealBatch_inv (cfg : Config) (s : State) (b : Batch) (o d : Nat) (by_ : SealedBy)
    (next : Phase) (hnext : ∀ b' o' d', next ≠ Phase.collecting b' o' d')
    (hs : State.Inv cfg s) (hb : b.WF ∧ b.Waited ∧ b ≠ [] ∧ d = o + cfg.gatherTime) :
    State.Inv cfg (sealBatch cfg s b o d by_ next) := by
  obtain ⟨_, h2, h3⟩ := hs
  refine ⟨?_, ?_, ?_⟩
  · intro b' o' d' h
    exact absurd h (hnext b' o' d')
  · intro sb hsb
    simp only [sealBatch, List.mem_append, List.mem_singleton] at hsb
    rcases hsb with hsb | rfl
    · exact h2 sb hsb
    · exact hb
  · simp [sealBatch, h3]

theorem step_inv (cfg : Config) (s : State) (e : Event) (hs : State.Inv cfg s) :
    State.Inv cfg (step cfg s e) := by
  obtain ⟨h1, h2, h3⟩ := hs
  obtain ⟨phase, calls, sent, sealed⟩ := s
  cases phase with
  | idle =>
    cases e with
    | request now req =>
      refine ⟨?_, h2, h3⟩
      intro b o d h
      simp only [step, Phase.collecting.injEq] at h
      obtain ⟨rfl, rfl, rfl⟩ := h
      exact ⟨add_wf _ _ wf_nil, add_waited _ _ (by intro e he; simp at he),
        add_ne_nil _ _, rfl⟩
    | timerFires => exact ⟨h1, h2, h3⟩
    | stop =>
      refine ⟨?_, h2, h3⟩
      intro b o d h
      simp [step] at h
  | collecting b o d =>
    have hb := h1 b o d rfl
    cases e with
    | request now req =>
      refine ⟨?_, h2, h3⟩
      intro b' o' d' h
      simp only [step, Phase.collecting.injEq] at h
      obtain ⟨rfl, rfl, rfl⟩ := h
      exact ⟨add_wf _ _ hb.1, add_waited _ _ hb.2.1, add_ne_nil _ _, hb.2.2.2⟩
    | timerFires =>
      exact sealBatch_inv cfg _ b o d _ _ (by intro _ _ _ h; cases h) ⟨h1, h2, h3⟩ hb
    | stop =>
      simp only [step]
      cases hp : cfg.onStop with
      | sealAndDispatch =>
        exact sealBatch_inv cfg _ b o d _ _ (by intro _ _ _ h; cases h) ⟨h1, h2, h3⟩ hb
      | rejectPending =>
        refine ⟨?_, h2, h3⟩
        intro b' o' d' h
        simp at h
  | stopped =>
    cases e with
    | request now req =>
      refine ⟨?_, h2, h3⟩
      intro b o d h
      simp [step] at h
    | timerFires => exact ⟨h1, h2, h3⟩
    | stop => exact ⟨h1, h2, h3⟩

theorem run_append (cfg : Config) (s : State) (es es' : List Event) :
    run cfg s (es ++ es') = run cfg (run cfg s es) es' := by
  simp [run, List.foldl_append]

theorem run_cons (cfg : Config) (s : State) (e : Event) (es : List Event) :
    run cfg s (e :: es) = run cfg (step cfg s e) es := rfl

theorem run_inv (cfg : Config) (es : List Event) :
    ∀ s, State.Inv cfg s → State.Inv cfg (run cfg s es) := by
  induction es with
  | nil => intro s hs; exact hs
  | cons e es ih => intro s hs; exact ih _ (step_inv cfg s e hs)


theorem reachable_collecting (cfg : Config) (es : List Event) (b : Batch) (o d : Nat)
    (h : (run cfg State.init es).phase = Phase.collecting b o d) :
    b.WF ∧ b.Waited ∧ b ≠ [] ∧ d = o + cfg.gatherTime :=
  (run_inv cfg es State.init (init_inv cfg)).1 b o d h

theorem step_seals (cfg : Config) (s : State) (e : Event) (b : Batch) (o d : Nat)
    (hphase : s.phase = Phase.collecting b o d) (hseal : Seals cfg e) :
    ∃ by_ next, step cfg s e = sealBatch cfg s b o d by_ next := by
  obtain ⟨phase, calls, sent, sealed⟩ := s
  simp only at hphase
  subst hphase
  rcases hseal with rfl | ⟨rfl, hp⟩
  · exact ⟨_, _, rfl⟩
  · exact ⟨SealedBy.stop, Phase.stopped, by simp [step, hp]⟩

theorem sentBy_seals (cfg : Config) (s : State) (e : Event) (b : Batch) (o d : Nat)
    (hphase : s.phase = Phase.collecting b o d) (hseal : Seals cfg e) :
    sentBy cfg s e = deliver b (cfg.Instances b.ids).1 (cfg.Instances b.ids).2 := by
  obtain ⟨by_, next, h⟩ := step_seals cfg s e b o d hphase hseal
  simp [sentBy, h, sealBatch]

theorem callsBy_seals (cfg : Config) (s : State) (e : Event) (b : Batch) (o d : Nat)
    (hphase : s.phase = Phase.collecting b o d) (hseal : Seals cfg e) :
    callsBy cfg s e = [b.ids] := by
  obtain ⟨by_, next, h⟩ := step_seals cfg s e b o d hphase hseal
  simp [callsBy, h, sealBatch]

theorem replyFor_soft (results : List (Option testInstance)) (err : Option Err) (i : Nat)
    (id : Id) (herr : err = none ∨ err = some Err.ErrPartialInstances) :
    replyFor results err i id = resolveInstance id (resultAt results i) := by
  rcases herr with rfl | rfl <;> simp [replyFor, hardError]

theorem replyFor_hard (results : List (Option testInstance)) (e : Err) (i : Nat) (id : Id)
    (hne : e ≠ Err.ErrPartialInstances) :
    replyFor results (some e) i id = { info := instanceInfo.zero, err := some e } := by
  simp [replyFor, hardError, hne]

theorem replyOf_of_receives (ds : List (instanceInfoReq × instanceInfoReply))
    (w : instanceInfoReq) (r : instanceInfoReply) (h : Receives ds w r) :
    replyOf ds w = some r := by
  obtain ⟨hmem, huniq⟩ := h
  unfold replyOf
  cases hf : ds.find? (fun d => d.1 = w) with
  | none =>
    have := List.find?_eq_none.mp hf (w, r) hmem
    simp at this
  | some d =>
    have hd : d ∈ ds := List.mem_of_find?_eq_some hf
    have hw : d.1 = w := by simpa using List.find?_some hf
    simp [huniq d hd hw]


/-! ## Result resolution -/

/-- C1: in a batch sealed by the loop, when the Instance Getter returned no
error or the partial-instances error and the entry for an identifier is a
present handle whose `Addresses` succeeds with `A`, every request waiting on
that identifier is sent exactly the reply with the handle's status, the
addresses `A` and no error. -/
theorem resolution_success (cfg : Config) (es : List Event) (e : Event) (b : Batch) (o d : Nat)
    (i : Nat) (id : Id) (ws : List instanceInfoReq) (w : instanceInfoReq)
    (h : testInstance) (A : List Address)
    (hphase : (run cfg State.init es).phase = Phase.collecting b o d)
    (hseal : Seals cfg e)
    (hi : b[i]? = some (id, ws)) (hw : w ∈ ws)
    (herr : (cfg.Instances b.ids).2 = none ∨
      (cfg.Instances b.ids).2 = some Err.ErrPartialInstances)
    (hres : (cfg.Instances b.ids).1[i]? = some (some h))
    (haddr : h.Addresses = (A, none)) :
    Receives (sentBy cfg (run cfg State.init es) e) w
      { info := { status := h.Status, addresses := A }, err := none } := by
  rw [sentBy_seals cfg _ e b o d hphase hseal]
  have hwf := (reachable_collecting cfg es b o d hphase).1
  have hr := receives_of_wf b hwf (cfg.Instances b.ids).1 (cfg.Instances b.ids).2 i id ws w hi hw
  rw [replyFor_soft _ _ _ _ herr] at hr
  simpa [resultAt, hres, resolveInstance, haddr] using hr

/-- The scenario of `TestSingleRequest`: a getter returning one instance with
status "foobar" and addresses 127.0.0.1, 192.168.1.1 makes the lookup of "foo"
return exactly that info and no error, and the getter has seen the
identifier list of "foo" alone. -/
theorem resolution_success_witness :
    (lookup (newAggregator singleRequestGetter 3 StopPolicy.sealAndDispatch)
        State.init 0 "foo" 0).1 =
      some { info := { status := "foobar",
                       addresses := [⟨"127.0.0.1"⟩, ⟨"192.168.1.1"⟩] },
             err := none } ∧
    (singleRequestGetter.after
        (lookup (newAggregator singleRequestGetter 3 StopPolicy.sealAndDispatch)
          State.init 0 "foo" 0).2.calls).ids = ["foo"] :=
  ⟨replyOf_of_receives _ _ _
    (resolution_success (newAggregator singleRequestGetter 3 StopPolicy.sealAndDispatch)
      [Event.request 0 ⟨"foo", 0⟩] Event.timerFires [("foo", [⟨"foo", 0⟩])] 0 3
      0 "foo" [⟨"foo", 0⟩] ⟨"foo", 0⟩ instance1 [⟨"127.0.0.1"⟩, ⟨"192.168.1.1"⟩]
      (by rfl) (by decide) (by rfl) (by simp) (Or.inl (by rfl)) (by rfl) (by rfl)),
   by rfl⟩

theorem queriedFrom_hard (results : List (Option testInstance)) (e : Err)
    (hne : e ≠ Err.ErrPartialInstances) (b : Batch) :
    ∀ i, queriedFrom results (some e) i b = [] := by
  induction b with
  | nil => intro i; rfl
  | cons x rest ih =>
    intro i
    obtain ⟨id, ws⟩ := x
    simp [queriedFrom, hardError, hne, ih (i + 1)]

theorem deliverFrom_hard (results : List (Option testInstance)) (e : Err)
    (hne : e ≠ Err.ErrPartialInstances) (b : Batch) :
    ∀ i, deliverFrom results (some e) i b =
      b.requests.map (fun w => (w, { info := instanceInfo.zero, err := some e })) := by
  induction b with
  | nil => intro i; simp [deliverFrom, Batch.requests]
  | cons x rest ih =>
    intro i
    obtain ⟨id, ws⟩ := x
    simp [deliverFrom, requests_cons, ih (i + 1), replyFor_hard _ _ _ _ hne]

/-- C2: when the Instance Getter returns an error other than the
partial-instances error for a batch sealed by the loop, every request of the
batch is sent exactly that error (with an empty info), whatever result list
came with it, and no instance handle is queried. -/
theorem hard_error_fan_out (cfg : Config) (es : List Event) (e : Event) (b : Batch) (o d : Nat)
    (err : Err)
    (hphase : (run cfg State.init es).phase = Phase.collecting b o d)
    (hseal : Seals cfg e)
    (herr : (cfg.Instances b.ids).2 = some err)
    (hne : err ≠ Err.ErrPartialInstances) :
    sentBy cfg (run cfg State.init es) e =
        b.requests.map (fun w => (w, { info := instanceInfo.zero, err := some err })) ∧
      (∀ w ∈ b.requests,
        Receives (sentBy cfg (run cfg State.init es) e) w
          { info := instanceInfo.zero, err := some err }) ∧
      queried b (cfg.Instances b.ids).1 (cfg.Instances b.ids).2 = [] := by
  have hsent : sentBy cfg (run cfg State.init es) e =
      b.requests.map (fun w => (w, { info := instanceInfo.zero, err := some err })) := by
    rw [sentBy_seals cfg _ e b o d hphase hseal, herr]
    exact deliverFrom_hard _ _ hne b 0
  refine ⟨hsent, ?_, ?_⟩
  · intro w hw
    rw [hsent]
    refine ⟨List.mem_map.mpr ⟨w, hw, rfl⟩, ?_⟩
    intro x hx _
    obtain ⟨w', _, rfl⟩ := List.mem_map.mp hx
    rfl
  · rw [herr]
    exact queriedFrom_hard _ _ hne b 0

/-- The scenario of `TestError`: the lookup of "foo" returns the getter's error. -/
theorem hard_error_fan_out_witness :
    sentBy (newAggregator errorGetter 3 StopPolicy.rejectPending)
        (run (newAggregator errorGetter 3 StopPolicy.rejectPending) State.init
          [Event.request 0 ⟨"foo", 0⟩]) Event.timerFires =
      [(⟨"foo", 0⟩, { info := instanceInfo.zero, err := some ourError })] :=
  (hard_error_fan_out (newAggregator errorGetter 3 StopPolicy.rejectPending)
    [Event.request 0 ⟨"foo", 0⟩] Event.timerFires [("foo", [⟨"foo", 0⟩])] 0 3 ourError
    (by rfl) (by decide) (by rfl) (by decide)).1

/-- C3: when the Instance Getter returns the partial-instances error for a
batch sealed by the loop, every request whose identifier has an absent entry
is sent the not-found error for its identifier, and every request whose
identifier has a present entry is resolved from that entry alone: the info
when its address fetch succeeds, the fetch error otherwise. -/
theorem partial_result_isolation (cfg : Config) (es : List Event) (e : Event) (b : Batch)
    (o d : Nat) (i : Nat) (id : Id) (ws : List instanceInfoReq) (w : instanceInfoReq)
    (hphase : (run cfg State.init es).phase = Phase.collecting b o d)
    (hseal : Seals cfg e)
    (hpart : (cfg.Instances b.ids).2 = some Err.ErrPartialInstances)
    (hi : b[i]? = some (id, ws)) (hw : w ∈ ws) :
    ((cfg.Instances b.ids).1[i]? = some none →
        Receives (sentBy cfg (run cfg State.init es) e) w
          { info := instanceInfo.zero, err := some (NotFoundf id) }) ∧
      (∀ h A, (cfg.Instances b.ids).1[i]? = some (some h) → h.Addresses = (A, none) →
        Receives (sentBy cfg (run cfg State.init es) e) w
          { info := { status := h.Status, addresses := A }, err := none }) ∧
      (∀ h A err, (cfg.Instances b.ids).1[i]? = some (some h) → h.Addresses = (A, some err) →
        Receives (sentBy cfg (run cfg State.init es) e) w
          { info := instanceInfo.zero, err := some err }) := by
  rw [sentBy_seals cfg _ e b o d hphase hseal]
  have hwf := (reachable_collecting cfg es b o d hphase).1
  have hr := receives_of_wf b hwf (cfg.Instances b.ids).1 (cfg.Instances b.ids).2 i id ws w hi hw
  rw [replyFor_soft _ _ _ _ (Or.inr hpart)] at hr
  refine ⟨?_, ?_, ?_⟩
  · intro hres
    simpa [resultAt, hres, resolveInstance] using hr
  · intro h A hres haddr
    simpa [resultAt, hres, resolveInstance, haddr] using hr
  · intro h A err hres haddr
    simpa [resultAt, hres, resolveInstance, haddr] using hr

/-- The scenario of `TestPartialErrResponse` with a second identifier: "foo"
has an absent entry and is sent the not-found error for "instance foo". -/
theorem partial_result_isolation_witness :
    Receives
      (sentBy (newAggregator partialGetter 3 StopPolicy.rejectPending)
        (run (newAggregator partialGetter 3 StopPolicy.rejectPending) State.init
          [Event.request 0 ⟨"foo", 0⟩, Event.request 1 ⟨"bar", 1⟩]) Event.timerFires)
      ⟨"foo", 0⟩ { info := instanceInfo.zero, err := some (Err.NotFound "instance foo") } :=
  (partial_result_isolation (newAggregator partialGetter 3 StopPolicy.rejectPending)
    [Event.request 0 ⟨"foo", 0⟩, Event.request 1 ⟨"bar", 1⟩] Event.timerFires
    [("foo", [⟨"foo", 0⟩]), ("bar", [⟨"bar", 1⟩])] 0 3 0 "foo" [⟨"foo", 0⟩] ⟨"foo", 0⟩
    (by rfl) (by decide) (by rfl) (by rfl) (by simp)).1 (by rfl)


theorem resultAt_set_ne (results : List (Option testInstance)) (i j : Nat)
    (x : Option testInstance) (hne : j ≠ i) :
    resultAt (results.set i x) j = resultAt results j := by
  simp [resultAt, List.getElem?_set_ne (Ne.symm hne)]

/-- C4: in a batch sealed by the loop without a hard error, when the handle of
the identifier at position `i` fails its address fetch with `err`, every
request waiting on that identifier is sent exactly `err` with an empty info,
and every request waiting on an identifier at another position is sent the
reply it would be sent if position `i` held any other handle `x` (one whose
address fetch succeeds, say). -/
theorem address_failure_isolation (cfg : Config) (es : List Event) (e : Event) (b : Batch)
    (o d : Nat) (i : Nat) (idA : Id) (wsA : List instanceInfoReq) (h : testInstance)
    (A : List Address) (err : Err)
    (hphase : (run cfg State.init es).phase = Phase.collecting b o d)
    (hseal : Seals cfg e)
    (hok : (cfg.Instances b.ids).2 = none ∨
      (cfg.Instances b.ids).2 = some Err.ErrPartialInstances)
    (hi : b[i]? = some (idA, wsA))
    (hres : (cfg.Instances b.ids).1[i]? = some (some h))
    (hfail : h.Addresses = (A, some err)) :
    (∀ w ∈ wsA, Receives (sentBy cfg (run cfg State.init es) e) w
        { info := instanceInfo.zero, err := some err }) ∧
      (∀ (j : Nat) (idB : Id) (wsB : List instanceInfoReq) (w : instanceInfoReq)
          (x : testInstance),
        j ≠ i → b[j]? = some (idB, wsB) → w ∈ wsB →
          ∃ r, Receives (sentBy cfg (run cfg State.init es) e) w r ∧
            Receives (deliver b ((cfg.Instances b.ids).1.set i (some x))
              (cfg.Instances b.ids).2) w r) := by
  rw [sentBy_seals cfg _ e b o d hphase hseal]
  have hwf := (reachable_collecting cfg es b o d hphase).1
  refine ⟨?_, ?_⟩
  · intro w hw
    have hr := receives_of_wf b hwf (cfg.Instances b.ids).1 (cfg.Instances b.ids).2
      i idA wsA w hi hw
    rw [replyFor_soft _ _ _ _ hok] at hr
    simpa [resultAt, hres, resolveInstance, hfail] using hr
  · intro j idB wsB w x hne hj hw
    refine ⟨replyFor (cfg.Instances b.ids).1 (cfg.Instances b.ids).2 j idB,
      receives_of_wf b hwf _ _ j idB wsB w hj hw, ?_⟩
    have hr := receives_of_wf b hwf ((cfg.Instances b.ids).1.set i (some x))
      (cfg.Instances b.ids).2 j idB wsB w hj hw
    rw [replyFor_soft _ _ _ _ hok, resultAt_set_ne _ _ _ _ hne] at hr
    rw [replyFor_soft _ _ _ _ hok]
    exact hr

/-- The scenario of `TestAddressesError` with a second identifier: the address
fetch of "foo" fails with "gotcha", which is what the request for "foo" is sent. -/
theorem address_failure_isolation_witness :
    Receives
      (sentBy (newAggregator addressesErrorGetter 3 StopPolicy.rejectPending)
        (run (newAggregator addressesErrorGetter 3 StopPolicy.rejectPending) State.init
          [Event.request 0 ⟨"foo", 0⟩, Event.request 1 ⟨"bar", 1⟩]) Event.timerFires)
      ⟨"foo", 0⟩ { info := instanceInfo.zero, err := some gotcha } :=
  (address_failure_isolation (newAggregator addressesErrorGetter 3 StopPolicy.rejectPending)
    [Event.request 0 ⟨"foo", 0⟩, Event.request 1 ⟨"bar", 1⟩] Event.timerFires
    [("foo", [⟨"foo", 0⟩]), ("bar", [⟨"bar", 1⟩])] 0 3 0 "foo" [⟨"foo", 0⟩]
    { instance1 with err := some gotcha } [] gotcha
    (by rfl) (by decide) (Or.inl (by rfl)) (by rfl) (by rfl) (by rfl)).1 ⟨"foo", 0⟩ (by simp)

theorem wf_index_unique (b : Batch) (hwf : b.WF) (i j : Nat) (id : Id)
    (ws ws' : List instanceInfoReq)
    (hi : b[i]? = some (id, ws)) (hj : b[j]? = some (id, ws')) : j = i := by
  have h1 := ids_getElem? b i id ws hi
  have h2 := ids_getElem? b j id ws' hj
  obtain ⟨hlt1, h1⟩ := List.getElem?_eq_some_iff.mp h1
  obtain ⟨hlt2, h2⟩ := List.getElem?_eq_some_iff.mp h2
  exact (@List.Nodup.getElem_inj_iff _ _ hwf.1 j hlt2 i hlt1).mp (by rw [h1, h2])

/-- C7: in a batch sealed by the loop, any two replies sent to requests naming
the same identifier are equal, whatever result list and error the Instance
Getter returned. -/
theorem same_identifier_consistency (cfg : Config) (es : List Event) (e : Event) (b : Batch)
    (o d : Nat)
    (hphase : (run cfg State.init es).phase = Phase.collecting b o d)
    (hseal : Seals cfg e) :
    ∀ d1 ∈ sentBy cfg (run cfg State.init es) e, ∀ d2 ∈ sentBy cfg (run cfg State.init es) e,
      d1.1.instId = d2.1.instId → d1.2 = d2.2 := by
  rw [sentBy_seals cfg _ e b o d hphase hseal]
  have hwf := (reachable_collecting cfg es b o d hphase).1
  intro d1 hd1 d2 hd2 hid
  obtain ⟨j1, id1, ws1, hj1, hw1, hr1⟩ := (mem_deliver b _ _ d1).mp hd1
  obtain ⟨j2, id2, ws2, hj2, hw2, hr2⟩ := (mem_deliver b _ _ d2).mp hd2
  have e1 : d1.1.instId = id1 := hwf.2 (id1, ws1) (List.getElem?_mem hj1) _ hw1
  have e2 : d2.1.instId = id2 := hwf.2 (id2, ws2) (List.getElem?_mem hj2) _ hw2
  have hid' : id2 = id1 := by rw [← e1, ← e2, hid]
  subst hid'
  have hj := wf_index_unique b hwf j1 j2 id2 ws1 ws2 hj1 hj2
  subst hj
  rw [hr1, hr2]

/-- Two lookups of "foo" in one window: both requests are sent a reply, and
the two replies are equal. -/
theorem same_identifier_consistency_witness :
    ((⟨"foo", 0⟩, { info := { status := "foobar", addresses := instance1.addresses },
                    err := none }) : instanceInfoReq × instanceInfoReply) ∈
        sentBy (newAggregator singleRequestGetter 3 StopPolicy.rejectPending)
          (run (newAggregator singleRequestGetter 3 StopPolicy.rejectPending) State.init
            [Event.request 0 ⟨"foo", 0⟩, Event.request 1 ⟨"foo", 1⟩]) Event.timerFires ∧
      ((⟨"foo", 1⟩, { info := { status := "foobar", addresses := instance1.addresses },
                      err := none }) : instanceInfoReq × instanceInfoReply) ∈
        sentBy (newAggregator singleRequestGetter 3 StopPolicy.rejectPending)
          (run (newAggregator singleRequestGetter 3 StopPolicy.rejectPending) State.init
            [Event.request 0 ⟨"foo", 0⟩, Event.request 1 ⟨"foo", 1⟩]) Event.timerFires ∧
      ((⟨"foo", 0⟩, { info := { status := "foobar", addresses := instance1.addresses },
                      err := none }) : instanceInfoReq × instanceInfoReply).2 =
        ((⟨"foo", 1⟩, { info := { status := "foobar", addresses := instance1.addresses },
                        err := none }) : instanceInfoReq × instanceInfoReply).2 :=
  ⟨by decide, by decide,
   same_identifier_consistency (newAggregator singleRequestGetter 3 StopPolicy.rejectPending)
      [Event.request 0 ⟨"foo", 0⟩, Event.request 1 ⟨"foo", 1⟩] Event.timerFires
      [("foo", [⟨"foo", 0⟩, ⟨"foo", 1⟩])] 0 3 (by rfl) (by decide)
      (⟨"foo", 0⟩, { info := { status := "foobar", addresses := instance1.addresses },
                     err := none })
      (by decide)
      (⟨"foo", 1⟩, { info := { status := "foobar", addresses := instance1.addresses },
                     err := none })
      (by decide) rfl⟩

/-- C9: in a batch sealed by the loop without a hard error, when the returned
result list is as long as the identifier list, every request waiting on the
identifier at position `i` is sent exactly the reply resolved from the entry
at position `i` (the not-found error for that identifier if the entry is
absent, else that handle's status and addresses or its fetch error), and the
same reply for every other result list with that entry at position `i`. -/
theorem positional_alignment (cfg : Config) (es : List Event) (e : Event) (b : Batch)
    (o d : Nat) (i : Nat) (id : Id) (ws : List instanceInfoReq) (w : instanceInfoReq)
    (hphase : (run cfg State.init es).phase = Phase.collecting b o d)
    (hseal : Seals cfg e)
    (hok : (cfg.Instances b.ids).2 = none ∨
      (cfg.Instances b.ids).2 = some Err.ErrPartialInstances)
    (hlen : (cfg.Instances b.ids).1.length = b.ids.length)
    (hi : b[i]? = some (id, ws)) (hw : w ∈ ws) :
    ∃ r, (cfg.Instances b.ids).1[i]? = some r ∧
      Receives (sentBy cfg (run cfg State.init es) e) w (resolveInstance id r) ∧
      (r = none → resolveInstance id r =
        { info := instanceInfo.zero, err := some (NotFoundf id) }) ∧
      (∀ h, r = some h → resolveInstance id r =
        match h.Addresses with
        | (_, some err) => { info := instanceInfo.zero, err := some err }
        | (A, none) => { info := { status := h.Status, addresses := A }, err := none }) ∧
      (∀ results, results[i]? = some r →
        Receives (deliver b results (cfg.Instances b.ids).2) w (resolveInstance id r)) := by
  have hwf := (reachable_collecting cfg es b o d hphase).1
  have hlt : i < (cfg.Instances b.ids).1.length := by
    rw [hlen]
    exact (List.getElem?_eq_some_iff.mp (ids_getElem? b i id ws hi)).1
  refine ⟨(cfg.Instances b.ids).1[i], List.getElem?_eq_getElem hlt, ?_, ?_, ?_, ?_⟩
  · rw [sentBy_seals cfg _ e b o d hphase hseal]
    have hr := receives_of_wf b hwf (cfg.Instances b.ids).1 (cfg.Instances b.ids).2
      i id ws w hi hw
    rw [replyFor_soft _ _ _ _ hok] at hr
    simpa [resultAt, List.getElem?_eq_getElem hlt] using hr
  · intro hr; rw [hr]; rfl
  · intro h hr; rw [hr]; rfl
  · intro results hres
    have hr := receives_of_wf b hwf results (cfg.Instances b.ids).2 i id ws w hi hw
    rw [replyFor_soft _ _ _ _ hok] at hr
    simpa [resultAt, hres] using hr

/-- The scenario of `TestMultipleResponseHandling`: in the batch of foo2 and
foo3 with results "not foobar" and "ok-ish", foo3 is sent the status "ok-ish". -/
theorem positional_alignment_witness :
    Receives
      (sentBy (newAggregator multipleGetter 30 StopPolicy.rejectPending)
        (run (newAggregator multipleGetter 30 StopPolicy.rejectPending) State.init
          [Event.request 0 ⟨"foo2", 1⟩, Event.request 0 ⟨"foo3", 2⟩]) Event.timerFires)
      ⟨"foo3", 2⟩
      { info := { status := "ok-ish", addresses := [⟨"192.168.1.3"⟩] }, err := none } ∧
    Receives
      (sentBy (newAggregator multipleGetter 30 StopPolicy.rejectPending)
        (run (newAggregator multipleGetter 30 StopPolicy.rejectPending) State.init
          [Event.request 0 ⟨"foo2", 1⟩, Event.request 0 ⟨"foo3", 2⟩]) Event.timerFires)
      ⟨"foo2", 1⟩
      { info := { status := "not foobar", addresses := [⟨"192.168.1.2"⟩] }, err := none } := by
  obtain ⟨r, hr, hrec, -⟩ :=
    positional_alignment (newAggregator multipleGetter 30 StopPolicy.rejectPending)
      [Event.request 0 ⟨"foo2", 1⟩, Event.request 0 ⟨"foo3", 2⟩] Event.timerFires
      [("foo2", [⟨"foo2", 1⟩]), ("foo3", [⟨"foo3", 2⟩])] 0 30 1 "foo3" [⟨"foo3", 2⟩]
      ⟨"foo3", 2⟩ (by rfl) (by decide) (Or.inl (by rfl)) (by rfl) (by rfl) (by simp)
  have hr' : r = some instance3 := by
    have h0 : (multipleGetter.getter ["foo2", "foo3"]).1[1]? = some (some instance3) := by rfl
    exact Option.some.inj (hr.symm.trans h0)
  subst hr'
  exact ⟨hrec, by decide⟩

/-! ## Accounting of requests and replies -/

theorem accepted_append (es es' : List Event) :
    accepted (es ++ es') = accepted es ++ accepted es' := by
  induction es with
  | nil => rfl
  | cons e es ih => cases e <;> simp [accepted, ih]

theorem deliver_map_fst (b : Batch) (results : List (Option testInstance)) (err : Option Err) :
    (deliver b results err).map Prod.fst = b.requests :=
  deliverFrom_map_fst results err b 0

theorem sealBatch_accounting (cfg : Config) (s : State) (b : Batch) (o d : Nat)
    (by_ : SealedBy) (next : Phase) (hnext : ∀ b' o' d', next ≠ Phase.collecting b' o' d') :
    (sealBatch cfg s b o d by_ next).sent.map Prod.fst ++
        (sealBatch cfg s b o d by_ next).pending =
      s.sent.map Prod.fst ++ b.requests := by
  have hp : (sealBatch cfg s b o d by_ next).pending = [] := by
    cases next with
    | idle => rfl
    | stopped => rfl
    | collecting b' o' d' => exact absurd rfl (hnext b' o' d')
  rw [hp]
  simp [sealBatch, deliver_map_fst]

theorem step_accounting (cfg : Config) (s : State) (e : Event) :
    ((step cfg s e).sent.map Prod.fst ++ (step cfg s e).pending).Perm
      ((s.sent.map Prod.fst ++ s.pending) ++ accepted [e]) := by
  obtain ⟨phase, calls, sent, sealed⟩ := s
  cases phase with
  | idle =>
    cases e with
    | request now req => simp [step, State.pending, accepted, Batch.add, Batch.requests]
    | timerFires => simp [step, State.pending, accepted]
    | stop => simp [step, State.pending, accepted]
  | collecting b o d =>
    cases e with
    | request now req =>
      simp only [step, State.pending, accepted, List.append_assoc]
      exact List.Perm.append_left _ (requests_add_perm b req)
    | timerFires =>
      simp only [step]
      rw [sealBatch_accounting cfg _ b o d _ _ (by intro _ _ _ h; cases h)]
      simp [State.pending, accepted]
    | stop =>
      simp only [step]
      cases hp : cfg.onStop with
      | sealAndDispatch =>
        simp only
        rw [sealBatch_accounting cfg _ b o d _ _ (by intro _ _ _ h; cases h)]
        simp [State.pending, accepted]
      | rejectPending =>
        simp [State.pending, accepted, Function.comp_def]
  | stopped =>
    cases e with
    | request now req => simp [step, State.pending, accepted]
    | timerFires => simp [step, State.pending, accepted]
    | stop => simp [step, State.pending, accepted]

theorem run_accounting (cfg : Config) (es : List Event) :
    ∀ s, ((run cfg s es).sent.map Prod.fst ++ (run cfg s es).pending).Perm
      ((s.sent.map Prod.fst ++ s.pending) ++ accepted es) := by
  induction es with
  | nil => intro s; simp [run, accepted]
  | cons e es ih =>
    intro s
    rw [run_cons]
    refine (ih (step cfg s e)).trans ?_
    have h := (step_accounting cfg s e).append_right (accepted es)
    refine h.trans ?_
    rw [List.append_assoc, ← accepted_append]
    rfl

theorem step_seals_pending (cfg : Config) (s : State) (e : Event) (b : Batch) (o d : Nat)
    (hphase : s.phase = Phase.collecting b o d) (hseal : Seals cfg e) :
    (step cfg s e).pending = [] := by
  obtain ⟨phase, calls, sent, sealed⟩ := s
  simp only at hphase
  subst hphase
  rcases hseal with rfl | ⟨rfl, hp⟩
  · rfl
  · simp [step, hp, sealBatch, State.pending]


/-- C5: after every sequence of events, the requests that have been sent a
reply together with those still waiting in the open batch are exactly the
accepted requests, each as often as it was accepted (so a request accepted
once and no longer waiting has been sent exactly one reply, whatever happens
later); and sealing a batch sends one reply per request of the batch, in the
number of its requests, and leaves no request waiting for a later batch. -/
theorem exactly_once_reply (cfg : Config) (es : List Event) :
    (((run cfg State.init es).sent.map Prod.fst ++ (run cfg State.init es).pending).Perm
        (accepted es)) ∧
      (∀ req, ((run cfg State.init es).sent.map Prod.fst).count req +
          (run cfg State.init es).pending.count req = (accepted es).count req) ∧
      (∀ req, (accepted es).count req = 1 → req ∉ (run cfg State.init es).pending →
          ((run cfg State.init es).sent.map Prod.fst).count req = 1) ∧
      (∀ e b o d, (run cfg State.init es).phase = Phase.collecting b o d → Seals cfg e →
          (sentBy cfg (run cfg State.init es) e).map Prod.fst = b.requests ∧
          (sentBy cfg (run cfg State.init es) e).length = b.requests.length ∧
          (step cfg (run cfg State.init es) e).sent =
            (run cfg State.init es).sent ++ sentBy cfg (run cfg State.init es) e ∧
          (step cfg (run cfg State.init es) e).pending = []) := by
  have hperm : ((run cfg State.init es).sent.map Prod.fst ++
      (run cfg State.init es).pending).Perm (accepted es) := by
    simpa [State.init, State.pending] using run_accounting cfg es State.init
  have hcount : ∀ req, ((run cfg State.init es).sent.map Prod.fst).count req +
      (run cfg State.init es).pending.count req = (accepted es).count req := by
    intro req
    rw [← List.count_append]
    exact hperm.count_eq req
  refine ⟨hperm, hcount, ?_, ?_⟩
  · intro req h1 hp
    have := hcount req
    rw [List.count_eq_zero_of_not_mem hp, h1] at this
    simpa using this
  · intro e b o d hphase hseal
    have hs := sentBy_seals cfg _ e b o d hphase hseal
    refine ⟨?_, ?_, ?_, step_seals_pending cfg _ e b o d hphase hseal⟩
    · rw [hs]; exact deliver_map_fst _ _ _
    · rw [← deliver_map_fst b (cfg.Instances b.ids).1 (cfg.Instances b.ids).2, hs,
        List.length_map]
    · obtain ⟨by_, next, h⟩ := step_seals cfg _ e b o d hphase hseal
      rw [hs, h]
      rfl

/-- In the run of two windows every accepted request has been answered, and
the first request for "foo" exactly once. -/
theorem exactly_once_reply_witness :
    ((run (newAggregator singleRequestGetter 3 StopPolicy.rejectPending) State.init
        twoWindows).sent.map Prod.fst).count ⟨"foo", 0⟩ = 1 :=
  (exactly_once_reply (newAggregator singleRequestGetter 3 StopPolicy.rejectPending)
    twoWindows).2.2.1 ⟨"foo", 0⟩ (by decide) (by decide)


/-! ## Provider calls -/

theorem exists_waiter_of_mem_ids (b : Batch) (hwf : b.WF) (hwaited : b.Waited) (id : Id)
    (hid : id ∈ b.ids) : ∃ w ∈ b.requests, w.instId = id := by
  simp only [Batch.ids, List.mem_map] at hid
  obtain ⟨x, hx, rfl⟩ := hid
  obtain ⟨w, hw⟩ := List.exists_mem_of_ne_nil _ (hwaited x hx)
  refine ⟨w, ?_, hwf.2 x hx w hw⟩
  simp only [Batch.requests, List.mem_flatMap]
  exact ⟨x, hx, hw⟩

/-- C6: when the loop seals a batch it makes one Instance Getter call, whose
identifier list has no repetition, contains the identifier of every request of
the batch exactly once, and contains only identifiers some request of the
batch names; and no identifier list ever passed to the getter has a repetition. -/
theorem provider_call_dedup (cfg : Config) (es : List Event) (e : Event) (b : Batch) (o d : Nat)
    (hphase : (run cfg State.init es).phase = Phase.collecting b o d)
    (hseal : Seals cfg e) :
    callsBy cfg (run cfg State.init es) e = [b.ids] ∧
      b.ids.Nodup ∧
      (∀ w ∈ b.requests, b.ids.count w.instId = 1) ∧
      (∀ id ∈ b.ids, ∃ w ∈ b.requests, w.instId = id) ∧
      (∀ ids ∈ (step cfg (run cfg State.init es) e).calls, ids.Nodup) := by
  obtain ⟨hwf, hwaited, -, -⟩ := reachable_collecting cfg es b o d hphase
  refine ⟨callsBy_seals cfg _ e b o d hphase hseal, hwf.1, ?_, ?_, ?_⟩
  · intro w hw
    exact List.count_eq_one_of_mem hwf.1 (mem_ids_of_mem_requests b hwf w hw)
  · exact exists_waiter_of_mem_ids b hwf hwaited
  · have hinv := step_inv cfg _ e (run_inv cfg es State.init (init_inv cfg))
    intro ids hids
    rw [hinv.2.2, List.mem_map] at hids
    obtain ⟨sb, hsb, rfl⟩ := hids
    exact (hinv.2.1 sb hsb).1.1

/-- Two lookups of "foo" in one window yield one getter call, with "foo" once. -/
theorem provider_call_dedup_witness :
    callsBy (newAggregator singleRequestGetter 10 StopPolicy.rejectPending)
        (run (newAggregator singleRequestGetter 10 StopPolicy.rejectPending) State.init
          [Event.request 0 ⟨"foo", 0⟩, Event.request 1 ⟨"foo", 1⟩]) Event.timerFires =
      [["foo"]] :=
  (provider_call_dedup (newAggregator singleRequestGetter 10 StopPolicy.rejectPending)
    [Event.request 0 ⟨"foo", 0⟩, Event.request 1 ⟨"foo", 1⟩] Event.timerFires
    [("foo", [⟨"foo", 0⟩, ⟨"foo", 1⟩])] 0 10 (by rfl) (by decide)).1


theorem step_calls (cfg : Config) (s : State) (e : Event) :
    (step cfg s e).calls = s.calls ++ callsBy cfg s e := by
  obtain ⟨phase, calls, sent, sealed⟩ := s
  cases phase <;> cases e <;> simp [callsBy, step, sealBatch]
  all_goals cases cfg.onStop <;> simp [sealBatch]

theorem callsBy_request (cfg : Config) (s : State) (now : Nat) (req : instanceInfoReq) :
    callsBy cfg s (Event.request now req) = [] := by
  obtain ⟨phase, calls, sent, sealed⟩ := s
  cases phase <;> simp [callsBy, step]

theorem callsBy_not_collecting (cfg : Config) (s : State) (e : Event)
    (h : s.phase = Phase.idle ∨ s.phase = Phase.stopped) : callsBy cfg s e = [] := by
  obtain ⟨phase, calls, sent, sealed⟩ := s
  simp only at h
  rcases h with rfl | rfl <;> cases e <;> simp [callsBy, step]

theorem callsBy_stop_reject (cfg : Config) (s : State)
    (h : cfg.onStop = StopPolicy.rejectPending) : callsBy cfg s Event.stop = [] := by
  obtain ⟨phase, calls, sent, sealed⟩ := s
  cases phase <;> simp [callsBy, step, h]

theorem run_calls_nil (cfg : Config) (es : List Event)
    (htimer : Event.timerFires ∉ es)
    (hstop : cfg.onStop = StopPolicy.rejectPending ∨ Event.stop ∉ es) :
    ∀ s, (run cfg s es).calls = s.calls := by
  induction es with
  | nil => intro s; rfl
  | cons e es ih =>
    intro s
    rw [run_cons, ih (fun h => htimer (List.mem_cons_of_mem _ h))
      (hstop.imp id (fun h h' => h (List.mem_cons_of_mem _ h'))), step_calls]
    cases e with
    | request now req => simp [callsBy_request]
    | timerFires => exact absurd (List.mem_cons_self _ _) htimer
    | stop =>
      rcases hstop with hp | hs
      · simp [callsBy_stop_reject cfg s hp]
      · exact absurd (List.mem_cons_self _ _) hs

theorem run_arrivals (cfg : Config) (rs : List (Nat × instanceInfoReq)) :
    ∀ (s : State) (b : Batch) (o d : Nat), s.phase = Phase.collecting b o d →
      run cfg s (arrivals rs) =
        { s with phase := Phase.collecting ((rs.map Prod.snd).foldl Batch.add b) o d } := by
  induction rs with
  | nil =>
    intro s b o d h
    obtain ⟨phase, calls, sent, sealed⟩ := s
    simp only at h
    subst h
    rfl
  | cons p rs ih =>
    intro s b o d h
    obtain ⟨phase, calls, sent, sealed⟩ := s
    simp only at h
    subst h
    simp only [arrivals, List.map_cons, run_cons]
    have := ih { phase := Phase.collecting (Batch.add b p.2) o d, calls := calls,
                 sent := sent, sealed := sealed } (Batch.add b p.2) o d rfl
    simp only [arrivals] at this
    simpa [step] using this

theorem run_window (cfg : Config) (s : State) (now : Nat) (req : instanceInfoReq)
    (rs : List (Nat × instanceInfoReq)) (h : s.phase = Phase.idle) :
    run cfg s (Event.request now req :: arrivals rs) =
      { s with phase :=
          Phase.collecting (batchOf (req :: rs.map Prod.snd)) now (now + cfg.gatherTime) } := by
  obtain ⟨phase, calls, sent, sealed⟩ := s
  simp only at h
  subst h
  rw [run_cons]
  have := run_arrivals cfg rs
    { phase := Phase.collecting (Batch.add [] req) now (now + cfg.gatherTime), calls := calls,
      sent := sent, sealed := sealed } (Batch.add [] req) now (now + cfg.gatherTime) rfl
  simpa [step, batchOf] using this


/-! ## The gather window -/

/-- C10: a request arriving in the idle state opens a batch holding just that
request under its identifier and arms the timer for `gatherTime` after its
arrival; a request arriving in the collecting state joins the batch and leaves
the opening time and the timer deadline unchanged.  So a window of requests
from the idle state leaves the deadline at `gatherTime` after the first
arrival, the timer firing seals that batch with that deadline, and every batch
ever sealed had its deadline `gatherTime` after its opening. -/
theorem fixed_gather_window (cfg : Config) (s : State) (now : Nat) (req : instanceInfoReq)
    (rs : List (Nat × instanceInfoReq)) (es : List Event) :
    (s.phase = Phase.idle →
        (step cfg s (Event.request now req)).phase =
          Phase.collecting [(req.instId, [req])] now (now + cfg.gatherTime)) ∧
      (∀ b o d, s.phase = Phase.collecting b o d →
        (step cfg s (Event.request now req)).phase = Phase.collecting (Batch.add b req) o d ∧
          req ∈ (Batch.add b req).requests ∧ req.instId ∈ (Batch.add b req).ids) ∧
      (s.phase = Phase.idle →
        (run cfg s (Event.request now req :: arrivals rs)).phase =
            Phase.collecting (batchOf (req :: rs.map Prod.snd)) now (now + cfg.gatherTime) ∧
          (run cfg s ((Event.request now req :: arrivals rs) ++ [Event.timerFires])).sealed =
            s.sealed ++ [{ batch := batchOf (req :: rs.map Prod.snd), openedAt := now,
                           deadline := now + cfg.gatherTime, sealedBy := SealedBy.timer }]) ∧
      (∀ sb ∈ (run cfg State.init es).sealed, sb.deadline = sb.openedAt + cfg.gatherTime) := by
  refine ⟨?_, ?_, ?_, ?_⟩
  · intro h
    obtain ⟨phase, calls, sent, sealed⟩ := s
    simp only at h
    subst h
    rfl
  · intro b o d h
    obtain ⟨phase, calls, sent, sealed⟩ := s
    simp only at h
    subst h
    have hmem : req ∈ (Batch.add b req).requests :=
      (requests_add_perm b req).mem_iff.mpr (by simp)
    refine ⟨rfl, hmem, ?_⟩
    rw [ids_add]
    by_cases hm : req.instId ∈ b.ids <;> simp [hm]
  · intro h
    have hw := run_window cfg s now req rs h
    refine ⟨by rw [hw], ?_⟩
    rw [run_append, hw]
    rfl
  · intro sb hsb
    exact ((run_inv cfg es State.init (init_inv cfg)).2.1 sb hsb).2.2.2

/-- With a window of 10, the batch opened by "foo" at time 5 and joined by
"bar" at time 9 keeps its deadline at 15. -/
theorem fixed_gather_window_witness :
    (run (newAggregator singleRequestGetter 10 StopPolicy.rejectPending) State.init
        (Event.request 5 ⟨"foo", 0⟩ :: arrivals [(9, ⟨"bar", 1⟩)])).phase =
      Phase.collecting [("foo", [⟨"foo", 0⟩]), ("bar", [⟨"bar", 1⟩])] 5 15 :=
  ((fixed_gather_window (newAggregator singleRequestGetter 10 StopPolicy.rejectPending)
    State.init 5 ⟨"foo", 0⟩ [(9, ⟨"bar", 1⟩)] []).2.2.1 (by rfl)).1


/-! ## Sealed batches in time-ordered runs -/

theorem timed_step (cfg : Config) (t0 T : Nat) (s : State) (clock clock' : Nat) (e : Event)
    (hinv : State.Inv cfg s) (ht : TimedInv cfg t0 T s clock)
    (hadm : admits s clock e = some clock')
    (hdur : ∀ t ∈ requestTimes [e], t ≤ t0 + T) :
    TimedInv cfg t0 T (step cfg s e) clock' := by
  obtain ⟨phase, calls, sent, sealed⟩ := s
  obtain ⟨hb, hp⟩ := ht
  cases phase with
  | idle =>
    cases e with
    | request now req =>
      simp only [admits] at hadm
      split at hadm
      · rename_i hle
        have hnow : now ≤ t0 + T := hdur now (by simp [requestTimes])
        cases hadm
        simp only at hp
        exact ⟨hb, by simp only [step]; exact ⟨le_trans hp hle, hnow⟩⟩
      · cases hadm
    | timerFires => simp [admits] at hadm
    | stop =>
      exact ⟨hb, by simp [step]⟩
  | collecting b o d =>
    have hd : d = o + cfg.gatherTime := (hinv.1 b o d rfl).2.2.2
    simp only at hp
    have hseal : sealed.length * cfg.gatherTime ≤ T := by omega
    cases e with
    | request now req =>
      exact ⟨hb, by simp only [step]; exact hp⟩
    | timerFires =>
      simp only [admits] at hadm
      split at hadm
      · cases hadm
        refine ⟨by simpa [step, sealBatch] using hseal, ?_⟩
        simp only [step, sealBatch, List.length_append, List.length_singleton]
        rw [Nat.add_mul]
        omega
      · cases hadm
    | stop =>
      simp only [step]
      cases hpol : cfg.onStop with
      | sealAndDispatch =>
        exact ⟨by simpa [sealBatch] using hseal, by simp [sealBatch]⟩
      | rejectPending =>
        exact ⟨hb, by simp⟩
  | stopped =>
    cases e with
    | request now req => exact ⟨hb, by simp [step]⟩
    | timerFires => simp [admits] at hadm
    | stop => exact ⟨hb, by simp [step]⟩

theorem requestTimes_cons_subset (e : Event) (es : List Event) :
    (∀ t ∈ requestTimes [e], t ∈ requestTimes (e :: es)) ∧
      (∀ t ∈ requestTimes es, t ∈ requestTimes (e :: es)) := by
  cases e <;> simp [requestTimes]
  intro t h
  exact Or.inr h

theorem timed_run (cfg : Config) (t0 T : Nat) (es : List Event) :
    ∀ (s : State) (clock : Nat), State.Inv cfg s → TimedInv cfg t0 T s clock →
      wellTimed cfg s clock es = true → (∀ t ∈ requestTimes es, t ≤ t0 + T) →
      (run cfg s es).sealed.length ≤ T / cfg.gatherTime + 1 ∨ cfg.gatherTime = 0 := by
  induction es with
  | nil =>
    intro s clock _ ht _ _
    rcases Nat.eq_zero_or_pos cfg.gatherTime with h0 | hpos
    · exact Or.inr h0
    · left
      have h := (Nat.le_div_iff_mul_le hpos).mpr ht.1
      simp only [run, List.foldl_nil]
      omega
  | cons e es ih =>
    intro s clock hinv ht hwt hdur
    simp only [wellTimed] at hwt
    cases hadm : admits s clock e with
    | none => rw [hadm] at hwt; cases hwt
    | some clock' =>
      rw [hadm] at hwt
      rw [run_cons]
      exact ih (step cfg s e) clock' (step_inv cfg s e hinv)
        (timed_step cfg t0 T s clock clock' e hinv ht hadm
          (fun t h => hdur t ((requestTimes_cons_subset e es).1 t h)))
        hwt (fun t h => hdur t ((requestTimes_cons_subset e es).2 t h))


theorem accounting_from_init (cfg : Config) (es : List Event) :
    ((run cfg State.init es).sent.map Prod.fst ++ (run cfg State.init es).pending).Perm
      (accepted es) := by
  simpa [State.init, State.pending] using run_accounting cfg es State.init

/-! ## Stopping -/

theorem step_stop_phase (cfg : Config) (s : State) :
    (step cfg s Event.stop).phase = Phase.stopped := by
  obtain ⟨phase, calls, sent, sealed⟩ := s
  cases phase with
  | idle => rfl
  | stopped => rfl
  | collecting b o d =>
    simp only [step]
    cases cfg.onStop <;> rfl

theorem run_stopped (cfg : Config) (es : List Event) :
    ∀ s : State, s.phase = Phase.stopped →
      run cfg s es =
        { s with sent := s.sent ++ (accepted es).map (fun r => (r, stoppedReply)) } := by
  induction es with
  | nil => intro s _; simp [run, accepted]
  | cons e es ih =>
    intro s h
    obtain ⟨phase, calls, sent, sealed⟩ := s
    simp only at h
    subst h
    rw [run_cons]
    cases e with
    | request now req =>
      have := ih { phase := Phase.stopped, calls := calls,
                   sent := sent ++ [(req, stoppedReply)], sealed := sealed } rfl
      simpa [step, accepted] using this
    | timerFires =>
      have := ih { phase := Phase.stopped, calls := calls, sent := sent, sealed := sealed } rfl
      simpa [step, accepted] using this
    | stop =>
      have := ih { phase := Phase.stopped, calls := calls, sent := sent, sealed := sealed } rfl
      simpa [step, accepted] using this

/-- C12: a stop in the idle state terminates the loop without an Instance
Getter call and without a reply, and `Wait` then returns a nil error; so for a
freshly constructed aggregator `Kill` followed by `Wait` makes no getter call
and returns nil. -/
theorem clean_shutdown (cfg : Config) (es : List Event)
    (hidle : (run cfg State.init es).phase = Phase.idle) :
    (step cfg (run cfg State.init es) Event.stop).phase = Phase.stopped ∧
      callsBy cfg (run cfg State.init es) Event.stop = [] ∧
      sentBy cfg (run cfg State.init es) Event.stop = [] ∧
      Wait (step cfg (run cfg State.init es) Event.stop) = some none ∧
      (run cfg State.init [Event.stop]).calls = [] ∧
      Wait (run cfg State.init [Event.stop]) = some none ∧
      Wait State.init = none := by
  have hphase := step_stop_phase cfg (run cfg State.init es)
  refine ⟨hphase, callsBy_not_collecting cfg _ _ (Or.inl hidle), ?_, ?_, rfl, rfl, rfl⟩
  · generalize run cfg State.init es = s at hidle
    obtain ⟨phase, calls, sent, sealed⟩ := s
    simp only at hidle
    subst hidle
    simp [sentBy, step]
  · simp [Wait, hphase]

/-- The scenario of `TestKillAndWait`: a fresh aggregator is killed and `Wait`
returns nil. -/
theorem clean_shutdown_witness :
    Wait (step (newAggregator testInstanceGetter.new 3 StopPolicy.sealAndDispatch)
      (run (newAggregator testInstanceGetter.new 3 StopPolicy.sealAndDispatch) State.init [])
      Event.stop) = some none :=
  (clean_shutdown (newAggregator testInstanceGetter.new 3 StopPolicy.sealAndDispatch) []
    (by rfl)).2.2.2.1

/-- C13: once the stop signal has been handled the loop is stopped and no
request is left waiting: every request accepted so far has been sent exactly
one reply, and every request that arrives after the stop is sent the reply
whose error is the stopped error, at once. -/
theorem no_hang_on_stop (cfg : Config) (es1 es2 : List Event) :
    (run cfg State.init (es1 ++ Event.stop :: es2)).phase = Phase.stopped ∧
      (run cfg State.init (es1 ++ Event.stop :: es2)).pending = [] ∧
      ((run cfg State.init (es1 ++ Event.stop :: es2)).sent.map Prod.fst).Perm
        (accepted (es1 ++ Event.stop :: es2)) ∧
      (run cfg State.init (es1 ++ Event.stop :: es2)).sent =
        (run cfg State.init (es1 ++ [Event.stop])).sent ++
          (accepted es2).map (fun r => (r, stoppedReply)) ∧
      (∀ r ∈ accepted es2,
        (r, stoppedReply) ∈ (run cfg State.init (es1 ++ Event.stop :: es2)).sent) ∧
      stoppedReply.err = some Err.Stopped := by
  have hsplit : run cfg State.init (es1 ++ Event.stop :: es2) =
      run cfg (run cfg State.init (es1 ++ [Event.stop])) es2 := by
    rw [← run_append, List.append_assoc]
    rfl
  have hstop : (run cfg State.init (es1 ++ [Event.stop])).phase = Phase.stopped := by
    rw [run_append]
    exact step_stop_phase cfg _
  have hrun := run_stopped cfg es2 _ hstop
  have hphase : (run cfg State.init (es1 ++ Event.stop :: es2)).phase = Phase.stopped := by
    rw [hsplit, hrun]
    exact hstop
  have hpending : (run cfg State.init (es1 ++ Event.stop :: es2)).pending = [] := by
    simp [State.pending, hphase]
  have hsent : (run cfg State.init (es1 ++ Event.stop :: es2)).sent =
      (run cfg State.init (es1 ++ [Event.stop])).sent ++
        (accepted es2).map (fun r => (r, stoppedReply)) := by
    rw [hsplit, hrun]
  refine ⟨hphase, hpending, ?_, hsent, ?_, rfl⟩
  · have h := (accounting_from_init cfg (es1 ++ Event.stop :: es2))
    rw [hpending, List.append_nil] at h
    exact h
  · intro r hr
    rw [hsent]
    exact List.mem_append_right _ (List.mem_map.mpr ⟨r, hr, rfl⟩)


end InstancePoller

namespace Instances

/-! ## Lemmas on images and specs -/

theorem matches_iff (image : Image) (itype : InstanceType) :
    image.matches itype = true ↔
      image.Arch ∈ itype.Arches ∧
        (itype.VirtType = none ∨ itype.VirtType = some image.VirtType) := by
  unfold Image.matches
  cases hv : itype.VirtType with
  | none =>
    simp only [List.any_eq_true, decide_eq_true_eq]
    constructor
    · rintro ⟨a, ha, rfl⟩
      exact ⟨ha, by simp⟩
    · rintro ⟨ha, _⟩
      exact ⟨image.Arch, ha, rfl⟩
  | some v =>
    by_cases hne : image.VirtType = v
    · subst hne
      simp only [ne_eq, not_true_eq_false, if_false, List.any_eq_true, decide_eq_true_eq]
      constructor
      · rintro ⟨a, ha, rfl⟩
        exact ⟨ha, by simp⟩
      · rintro ⟨ha, _⟩
        exact ⟨image.Arch, ha, rfl⟩
    · simp only [ne_eq, hne, not_false_eq_true, if_true]
      constructor
      · intro h; cases h
      · rintro ⟨_, h | h⟩
        · cases h
        · exact absurd (Option.some.inj h).symm hne

theorem mem_candidateSpecs (matching : List InstanceType) (possibleImages : List Image)
    (spec : InstanceSpec) :
    spec ∈ candidateSpecs matching possibleImages ↔
      spec.InstanceType ∈ matching ∧ spec.Image ∈ possibleImages ∧
        spec.Image.matches spec.InstanceType = true := by
  simp only [candidateSpecs, List.mem_flatMap, List.mem_map, List.mem_filter]
  constructor
  · rintro ⟨itype, hit, image, ⟨him, hm⟩, rfl⟩
    exact ⟨hit, him, hm⟩
  · rintro ⟨hit, him, hm⟩
    exact ⟨spec.InstanceType, hit, spec.Image, ⟨him, hm⟩, rfl⟩

theorem preferredSpec_mem (hostArch : String) (specs : List InstanceSpec) (spec : InstanceSpec)
    (h : preferredSpec hostArch specs = some spec) : spec ∈ specs := by
  unfold preferredSpec at h
  split at h
  · rename_i s hs
    cases h
    split at hs
    · exact List.mem_of_find?_eq_some hs
    · cases hs
  · split at h
    · exact List.getElem?_mem h
    · cases h

theorem preferredSpec_eq_none (hostArch : String) (specs : List InstanceSpec) :
    preferredSpec hostArch specs = none ↔ specs = [] := by
  constructor
  · intro h
    unfold preferredSpec at h
    split at h
    · cases h
    · split at h
      · rename_i hpos
        rw [List.getElem?_eq_getElem hpos] at h
        cases h
      · rename_i hpos
        exact List.length_eq_zero.mp (by omega)
  · rintro rfl
    rfl

theorem find_success (deps : Deps) (possibleImages : List Image) (ic : InstanceConstraint)
    (allInstanceTypes : List InstanceType) (spec : InstanceSpec) (err : Option String)
    (h : FindInstanceSpec deps possibleImages ic allInstanceTypes = some (some spec, err)) :
    err = none ∧ possibleImages ≠ [] ∧
      ∃ matching, matchingTypes deps ic allInstanceTypes = some (matching, none) ∧
        matching ≠ [] ∧
        preferredSpec deps.HostArch (candidateSpecs matching possibleImages) = some spec := by
  unfold FindInstanceSpec at h
  split at h
  · cases h
  · rename_i himg
    split at h
    · cases h
    · cases h
    · rename_i matching hm
      split at h
      · cases h
      · rename_i hlen
        split at h
        · rename_i spec' hp
          cases h
          exact ⟨rfl, fun h0 => himg (by simp [h0]), matching, hm,
            fun h0 => hlen (by simp [h0]), hp⟩
        · cases h

theorem find_of_matching (deps : Deps) (possibleImages : List Image) (ic : InstanceConstraint)
    (allInstanceTypes : List InstanceType) (matching : List InstanceType)
    (himg : possibleImages ≠ [])
    (hm : matchingTypes deps ic allInstanceTypes = some (matching, none))
    (hne : matching ≠ []) :
    FindInstanceSpec deps possibleImages ic allInstanceTypes =
      match preferredSpec deps.HostArch (candidateSpecs matching possibleImages) with
      | some spec => some (some spec, none)
      | none =>
        some (none, some ("no " ++ deps.Quote ic.Series ++ " images in " ++ ic.Region ++
          " matching instance types " ++
          fmtStrings (matching.map (fun itype => itype.Name)))) := by
  have h1 : ¬ possibleImages.length = 0 := fun h => himg (List.length_eq_zero.mp h)
  have h2 : ¬ matching.length = 0 := fun h => hne (List.length_eq_zero.mp h)
  unfold FindInstanceSpec
  simp only [h1, if_false, hm, h2]

/-! ## FindInstanceSpec -/

/-- C14: with an empty list of possible images `FindInstanceSpec` returns a nil
spec and the error `no "<Series>" images in <Region> with arches <Arches>`,
for every constraint and every list of instance types, before any instance
type is matched: also when the constraint names an invalid instance type, as
in the case of `TestFindInstanceSpecErrors` for the architecture arm. -/
theorem find_rejects_empty_images (deps : Deps) (ic : InstanceConstraint)
    (allInstanceTypes : List InstanceType) :
    FindInstanceSpec deps [] ic allInstanceTypes =
        some (none, some ("no " ++ deps.Quote ic.Series ++ " images in " ++ ic.Region ++
          " with arches " ++ fmtStrings ic.Arches)) ∧
      FindInstanceSpec testDeps [] (testConstraint "precise" ["arm"] ⟨some "invalid"⟩)
          testTypes =
        some (none, some "no \"precise\" images in test with arches [arm]") := by
  refine ⟨by simp [FindInstanceSpec], by decide⟩

theorem find?_first (allInstanceTypes pre post : List InstanceType) (t : InstanceType)
    (n : String) (hall : allInstanceTypes = pre ++ t :: post) (ht : t.Name = n)
    (hpre : ∀ x ∈ pre, x.Name ≠ n) :
    allInstanceTypes.find? (fun itype => itype.Name = n) = some t := by
  subst hall
  induction pre with
  | nil => simp [List.find?, ht]
  | cons x pre ih =>
    have hx : x.Name ≠ n := hpre x (List.mem_cons_self _ _)
    simp only [List.cons_append, List.find?, hx, decide_False]
    exact ih (fun y hy => hpre y (List.mem_cons_of_mem _ hy))

/-- C15: with a non-empty list of possible images and a constraint that has
the instance type name `n`, `FindInstanceSpec` returns the error
`invalid instance type "n"` when no instance type has that name, and
otherwise takes the first instance type of that name as its only matching
type, so that every spec it returns has that instance type. -/
theorem find_with_instance_type (deps : Deps) (possibleImages : List Image)
    (ic : InstanceConstraint) (allInstanceTypes : List InstanceType) (n : String)
    (himg : possibleImages ≠ [])
    (hhas : deps.HasInstanceType ic.Constraints = true)
    (hname : ic.Constraints.InstanceType = some n) :
    ((∀ t ∈ allInstanceTypes, t.Name ≠ n) →
        FindInstanceSpec deps possibleImages ic allInstanceTypes =
          some (none, some ("invalid instance type " ++ deps.Quote n))) ∧
      (∀ pre t post, allInstanceTypes = pre ++ t :: post → t.Name = n →
        (∀ x ∈ pre, x.Name ≠ n) →
          matchingTypes deps ic allInstanceTypes = some ([t], none) ∧
          ∀ spec err,
            FindInstanceSpec deps possibleImages ic allInstanceTypes = some (some spec, err) →
              spec.InstanceType = t) := by
  have h1 : ¬ possibleImages.length = 0 := fun h => himg (List.length_eq_zero.mp h)
  refine ⟨?_, ?_⟩
  · intro hnone
    have hf : allInstanceTypes.find? (fun itype => itype.Name = n) = none := by
      rw [List.find?_eq_none]
      intro x hx
      simpa using hnone x hx
    simp [FindInstanceSpec, h1, matchingTypes, hhas, hname, hf]
  · intro pre t post hall ht hpre
    have hf := find?_first allInstanceTypes pre post t n hall ht hpre
    have hm : matchingTypes deps ic allInstanceTypes = some ([t], none) := by
      simp [matchingTypes, hhas, hname, hf]
    refine ⟨hm, ?_⟩
    intro spec err h
    obtain ⟨-, -, matching, hm', -, hp⟩ :=
      find_success deps possibleImages ic allInstanceTypes spec err h
    rw [hm] at hm'
    have hmatching : matching = [t] := by
      have := Option.some.inj hm'
      exact (congrArg Prod.fst this).symm
    subst hmatching
    have hmem := preferredSpec_mem _ _ _ hp
    rw [mem_candidateSpecs] at hmem
    simpa using hmem.1

/-- The case of `TestFindInstanceSpecErrors` for the constraint
`instance-type=invalid`: the error is `invalid instance type "invalid"`. -/
theorem find_with_instance_type_witness :
    FindInstanceSpec testDeps testImages
        (testConstraint "raring" ["amd64", "i386"] ⟨some "invalid"⟩) testTypes =
      some (none, some "invalid instance type \"invalid\"") :=
  (find_with_instance_type testDeps testImages
    (testConstraint "raring" ["amd64", "i386"] ⟨some "invalid"⟩) testTypes "invalid"
    (by decide) (by rfl) (by rfl)).1 (by decide)

/-- C16: whenever `FindInstanceSpec` returns a spec, the error is nil, the
spec's image is one of the possible images, its instance type is one of the
matching instance types, and the image matches the type: the image's
architecture is among the type's and the type's virtualisation type is nil or
the image's. -/
theorem find_success_postcondition (deps : Deps) (possibleImages : List Image)
    (ic : InstanceConstraint) (allInstanceTypes : List InstanceType) (spec : InstanceSpec)
    (err : Option String)
    (h : FindInstanceSpec deps possibleImages ic allInstanceTypes = some (some spec, err)) :
    err = none ∧ spec.Image ∈ possibleImages ∧
      (∃ matching, matchingTypes deps ic allInstanceTypes = some (matching, none) ∧
        spec.InstanceType ∈ matching) ∧
      spec.Image.matches spec.InstanceType = true ∧
      spec.Image.Arch ∈ spec.InstanceType.Arches ∧
      (spec.InstanceType.VirtType = none ∨
        spec.InstanceType.VirtType = some spec.Image.VirtType) := by
  obtain ⟨herr, -, matching, hm, -, hp⟩ :=
    find_success deps possibleImages ic allInstanceTypes spec err h
  have hmem := (mem_candidateSpecs _ _ _).mp (preferredSpec_mem _ _ _ hp)
  have hmatch := (matches_iff _ _).mp hmem.2.2
  exact ⟨herr, hmem.2.1, ⟨matching, hm, hmem.1⟩, hmem.2.2, hmatch.1, hmatch.2⟩

/-- The case of `TestFindInstanceSpec` for the constraint
`instance-type=cc1.4xlarge`: the spec found has the image ami-01000035, which
is one of the possible images. -/
theorem find_success_postcondition_witness :
    ({ Id := "ami-01000035", Arch := "amd64", VirtType := "hvm" } : Image) ∈ testImages :=
  (find_success_postcondition testDeps testImages
    (testConstraint "quantal" ["amd64", "i386"] ⟨some "cc1.4xlarge"⟩) testTypes
    { InstanceType := { Name := "cc1.4xlarge", Arches := ["amd64"], VirtType := some "hvm" },
      Image := { Id := "ami-01000035", Arch := "amd64", VirtType := "hvm" } }
    none (by decide)).2.1

/-- C17: with a non-empty list of possible images and a non-empty list of
matching instance types, `FindInstanceSpec` returns a spec exactly when some
possible image matches some matching instance type, and otherwise the error
`no "<Series>" images in <Region> matching instance types [<names>]` with the
names of the matching types in their order. -/
theorem find_fails_iff_incompatible (deps : Deps) (possibleImages : List Image)
    (ic : InstanceConstraint) (allInstanceTypes matching : List InstanceType)
    (himg : possibleImages ≠ [])
    (hm : matchingTypes deps ic allInstanceTypes = some (matching, none))
    (hne : matching ≠ []) :
    ((∃ spec, FindInstanceSpec deps possibleImages ic allInstanceTypes =
          some (some spec, none)) ↔
        ∃ image ∈ possibleImages, ∃ itype ∈ matching, image.matches itype = true) ∧
      ((¬ ∃ image ∈ possibleImages, ∃ itype ∈ matching, image.matches itype = true) →
        FindInstanceSpec deps possibleImages ic allInstanceTypes =
          some (none, some ("no " ++ deps.Quote ic.Series ++ " images in " ++ ic.Region ++
            " matching instance types " ++
            fmtStrings (matching.map (fun itype => itype.Name))))) := by
  have hfind := find_of_matching deps possibleImages ic allInstanceTypes matching himg hm hne
  have hspecs : candidateSpecs matching possibleImages = [] ↔
      ¬ ∃ image ∈ possibleImages, ∃ itype ∈ matching, image.matches itype = true := by
    constructor
    · rintro h ⟨image, him, itype, hit, hmatch⟩
      have : ({ InstanceType := itype, Image := image } : InstanceSpec) ∈
          candidateSpecs matching possibleImages :=
        (mem_candidateSpecs _ _ _).mpr ⟨hit, him, hmatch⟩
      rw [h] at this
      cases this
    · intro h
      rw [List.eq_nil_iff_forall_not_mem]
      intro spec hspec
      obtain ⟨hit, him, hmatch⟩ := (mem_candidateSpecs _ _ _).mp hspec
      exact h ⟨spec.Image, him, spec.InstanceType, hit, hmatch⟩
  refine ⟨⟨?_, ?_⟩, ?_⟩
  · rintro ⟨spec, h⟩
    obtain ⟨-, -, matching', hm', -, hp⟩ :=
      find_success deps possibleImages ic allInstanceTypes spec none h
    obtain ⟨hit, him, hmatch⟩ := (mem_candidateSpecs _ _ _).mp (preferredSpec_mem _ _ _ hp)
    rw [hm] at hm'
    have hmatching : matching' = matching := (congrArg Prod.fst (Option.some.inj hm')).symm
    subst hmatching
    exact ⟨spec.Image, him, spec.InstanceType, hit, hmatch⟩
  · intro hex
    cases hp : preferredSpec deps.HostArch (candidateSpecs matching possibleImages) with
    | none =>
      exact absurd hex (hspecs.mp ((preferredSpec_eq_none _ _).mp hp))
    | some spec =>
      rw [hp] at hfind
      exact ⟨spec, hfind⟩
  · intro hno
    have hp := (preferredSpec_eq_none deps.HostArch _).mpr (hspecs.mpr hno)
    rw [hp] at hfind
    exact hfind

/-- An error case in the manner of `TestFindInstanceSpecErrors`: no image for
"raring" matches an instance type, and the error names the matching types. -/
theorem find_fails_iff_incompatible_witness :
    FindInstanceSpec testDeps [⟨"ami-arm", "arm", "hvm"⟩]
        (testConstraint "raring" ["amd64", "i386"] ⟨none⟩) testTypes =
      some (none,
        some "no \"raring\" images in test matching instance types [m1.small cc1.4xlarge]") :=
  (find_fails_iff_incompatible testDeps [⟨"ami-arm", "arm", "hvm"⟩]
    (testConstraint "raring" ["amd64", "i386"] ⟨none⟩) testTypes testTypes
    (by decide) (by rfl) (by decide)).2 (by decide)


end Instances

namespace EnvCmd

/-! ## EnsureEnvName -/

/-- C18: `EnsureEnvName` with a non-empty name returns nil, leaves the name and
does not read the environments file; with an empty name it returns the error
of `ReadEnvirons` if reading fails, `ErrNoEnvironmentSpecified` if the default
name is empty, and otherwise sets the name to the default and returns nil.
Whenever it returns nil the name is non-empty afterwards. -/
theorem ensure_env_name (ReadEnvirons : String → Except Error Environs) (c : EnvCommandBase) :
    (c.EnvName ≠ "" → c.EnsureEnvName ReadEnvirons = (none, c, [])) ∧
      (c.EnvName = "" → ∀ err, ReadEnvirons "" = Except.error err →
        c.EnsureEnvName ReadEnvirons = (some err, c, [""])) ∧
      (c.EnvName = "" → ∀ envs, ReadEnvirons "" = Except.ok envs → envs.Default = "" →
        c.EnsureEnvName ReadEnvirons = (some Error.ErrNoEnvironmentSpecified, c, [""])) ∧
      (c.EnvName = "" → ∀ envs, ReadEnvirons "" = Except.ok envs → envs.Default ≠ "" →
        c.EnsureEnvName ReadEnvirons = (none, { c with EnvName := envs.Default }, [""])) ∧
      ((c.EnsureEnvName ReadEnvirons).1 = none →
        (c.EnsureEnvName ReadEnvirons).2.1.EnvName ≠ "") := by
  refine ⟨?_, ?_, ?_, ?_, ?_⟩
  · intro h
    simp [EnvCommandBase.EnsureEnvName, h]
  · intro h err hr
    simp [EnvCommandBase.EnsureEnvName, h, hr]
  · intro h envs hr hd
    simp [EnvCommandBase.EnsureEnvName, h, hr, hd]
  · intro h envs hr hd
    simp [EnvCommandBase.EnsureEnvName, h, hr, hd]
  · intro h
    unfold EnvCommandBase.EnsureEnvName at h ⊢
    by_cases hn : c.EnvName = ""
    · simp only [hn, if_true] at h ⊢
      cases hr : ReadEnvirons "" with
      | error err => rw [hr] at h; simp at h
      | ok envs =>
        rw [hr] at h
        simp only at h ⊢
        by_cases hd : envs.Default = ""
        · simp [hd] at h
        · simp [hd]
    · simp [hn]

/-- With an empty name and the default environment "amazon" the name becomes
"amazon" and the error is nil. -/
theorem ensure_env_name_witness :
    EnvCommandBase.EnsureEnvName (fun _ => Except.ok { Default := "amazon" }) { EnvName := "" } =
      (none, { EnvName := "amazon" }, [""]) :=
  (ensure_env_name (fun _ => Except.ok { Default := "amazon" }) { EnvName := "" }).2.2.2.1
    (by rfl) { Default := "amazon" } (by rfl) (by decide)

/-! ## The current-environment file -/

theorem trimRight_snoc_newline (l : List Char) : trimRight (l ++ ['\n']) = trimRight l := by
  have h : isSpace '\n' = true := by decide
  simp [trimRight, List.dropWhile, h]

theorem trim_snoc_newline (l : List Char) :
    trimRight (trimLeft (l ++ ['\n'])) = trimRight (trimLeft l) := by
  induction l with
  | nil =>
    have h : isSpace '\n' = true := by decide
    simp [trimLeft, trimRight, List.dropWhile, h]
  | cons c l ih =>
    by_cases hc : isSpace c = true
    · simp only [trimLeft, List.cons_append, List.dropWhile, hc] at ih ⊢
      exact ih
    · have hc' : isSpace c = false := by simpa using hc
      simp only [trimLeft, List.cons_append, List.dropWhile, hc']
      exact trimRight_snoc_newline (c :: l)

theorem trimLeft_id (l : List Char) (h : ∀ c, l.head? = some c → isSpace c = false) :
    trimLeft l = l := by
  cases l with
  | nil => rfl
  | cons c l => simp [trimLeft, List.dropWhile, h c rfl]

theorem trimRight_id (l : List Char) (h : ∀ c, l.getLast? = some c → isSpace c = false) :
    trimRight l = l := by
  have hrev : ∀ c, l.reverse.head? = some c → isSpace c = false := by
    intro c hc
    exact h c (by simpa [List.head?_reverse] using hc)
  have := trimLeft_id l.reverse hrev
  simp only [trimLeft] at this
  simp [trimRight, this]

theorem trimSpace_append_newline (s : String) : TrimSpace (s ++ "\n") = TrimSpace s := by
  have hd : (s ++ "\n").data = s.data ++ ['\n'] := by
    rw [String.data_append]
  simp only [TrimSpace, hd, trim_snoc_newline]

/-- C19: with the current-environment file as explicit state, a successful
`WriteCurrentEnvironment` of a name followed by `ReadCurrentEnvironment`
returns the name with its leading and trailing white space trimmed, which is
the name itself when it neither starts nor ends with white space; and
`ReadCurrentEnvironment` returns the empty string when the file is missing or
unreadable. -/
theorem current_environment_round_trip (os : Os) (fault : Option (String × EnvFile))
    (f : EnvFile) (envName : String)
    (hok : (WriteCurrentEnvironment os fault f envName).1 = none) :
    (WriteCurrentEnvironment os fault f envName).2 = EnvFile.holds (envName ++ "\n") ∧
      ReadCurrentEnvironment (WriteCurrentEnvironment os fault f envName).2 =
        TrimSpace envName ∧
      ((∀ c, envName.data.head? = some c → isSpace c = false) →
        (∀ c, envName.data.getLast? = some c → isSpace c = false) →
        ReadCurrentEnvironment (WriteCurrentEnvironment os fault f envName).2 = envName) ∧
      ReadCurrentEnvironment EnvFile.unreadable = "" := by
  have hfile : (WriteCurrentEnvironment os fault f envName).2 =
      EnvFile.holds (envName ++ "\n") := by
    cases fault with
    | none => rfl
    | some p => simp [WriteCurrentEnvironment] at hok
  have hread : ReadCurrentEnvironment (WriteCurrentEnvironment os fault f envName).2 =
      TrimSpace envName := by
    rw [hfile]
    exact trimSpace_append_newline envName
  refine ⟨hfile, hread, ?_, rfl⟩
  intro hhead hlast
  rw [hread]
  simp only [TrimSpace, trimLeft_id _ hhead, trimRight_id _ hlast]

/-- Writing the name " amazon" with a leading blank and reading it back gives
"amazon". -/
theorem current_environment_round_trip_witness :
    ReadCurrentEnvironment
        (WriteCurrentEnvironment testOs none EnvFile.unreadable " amazon").2 = "amazon" :=
  ((current_environment_round_trip testOs none EnvFile.unreadable " amazon" (by rfl)).2.1).trans
    (by decide)

end EnvCmd

namespace Mongo

/-! ## The shared secret -/

theorem encodeChar_mem (v : Nat) : encodeChar v ∈ encodeStd := by
  have hlt : v % 64 < encodeStd.length := by
    have : encodeStd.length = 64 := by decide
    rw [this]
    exact Nat.mod_lt _ (by decide)
  unfold encodeChar
  rw [List.getD_eq_getElem _ _ hlt]
  exact List.getElem_mem _

theorem encode_length : ∀ l : List Nat, l.length % 3 = 0 →
    (EncodeToString l).length = l.length / 3 * 4
  | [], _ => rfl
  | [_], h => by simp at h
  | [_, _], h => by simp at h
  | b0 :: b1 :: b2 :: rest, h => by
    have hrest : rest.length % 3 = 0 := by
      simp only [List.length_cons] at h
      omega
    have ih := encode_length rest hrest
    simp only [EncodeToString, List.length_cons, ih]
    omega

theorem encode_mem : ∀ l : List Nat, l.length % 3 = 0 →
    ∀ c ∈ EncodeToString l, c ∈ encodeStd
  | [], _ => by intro c hc; simp [EncodeToString] at hc
  | [_], h => by simp at h
  | [_, _], h => by simp at h
  | b0 :: b1 :: b2 :: rest, h => by
    have hrest : rest.length % 3 = 0 := by
      simp only [List.length_cons] at h
      omega
    have ih := encode_mem rest hrest
    intro c hc
    simp only [EncodeToString, List.mem_cons] at hc
    rcases hc with rfl | rfl | rfl | rfl | hc
    · exact encodeChar_mem _
    · exact encodeChar_mem _
    · exact encodeChar_mem _
    · exact encodeChar_mem _
    · exact ih c hc

theorem encodeStd_nodup : encodeStd.Nodup := by decide

theorem encodeChar_inj (a b : Nat) (h : encodeChar a = encodeChar b) : a % 64 = b % 64 := by
  have hlen : encodeStd.length = 64 := by decide
  have ha : a % 64 < encodeStd.length := by rw [hlen]; exact Nat.mod_lt _ (by decide)
  have hb : b % 64 < encodeStd.length := by rw [hlen]; exact Nat.mod_lt _ (by decide)
  unfold encodeChar at h
  rw [List.getD_eq_getElem _ _ ha, List.getD_eq_getElem _ _ hb] at h
  exact (@List.Nodup.getElem_inj_iff _ _ encodeStd_nodup (a % 64) ha (b % 64) hb).mp h

theorem encode_getElem : ∀ (l : List Nat), l.length % 3 = 0 → ∀ (k v : Nat),
    3 * k + 2 < l.length →
    v = l.getD (3 * k) 0 * 65536 + l.getD (3 * k + 1) 0 * 256 + l.getD (3 * k + 2) 0 →
    (EncodeToString l)[4 * k]? = some (encodeChar (v / 262144)) ∧
      (EncodeToString l)[4 * k + 1]? = some (encodeChar (v / 4096)) ∧
      (EncodeToString l)[4 * k + 2]? = some (encodeChar (v / 64)) ∧
      (EncodeToString l)[4 * k + 3]? = some (encodeChar v)
  | [], _ => by intro k v hk; simp at hk
  | [_], h => by simp at h
  | [_, _], h => by simp at h
  | b0 :: b1 :: b2 :: rest, h => by
    have hrest : rest.length % 3 = 0 := by
      simp only [List.length_cons] at h
      omega
    have ih := encode_getElem rest hrest
    intro k v hk hv
    cases k with
    | zero =>
      subst hv
      simp [EncodeToString]
    | succ k =>
      have hk2 : 3 * k + 2 < rest.length := by
        simp only [List.length_cons] at hk
        omega
      have e0 : 3 * (k + 1) = 3 * k + 1 + 1 + 1 := by ring
      have e1 : 3 * (k + 1) + 1 = (3 * k + 1) + 1 + 1 + 1 := by ring
      have e2 : 3 * (k + 1) + 2 = (3 * k + 2) + 1 + 1 + 1 := by ring
      have hv2 : v = rest.getD (3 * k) 0 * 65536 + rest.getD (3 * k + 1) 0 * 256 +
          rest.getD (3 * k + 2) 0 := by
        rw [hv, e2, e1, e0]
        simp only [List.getD_cons_succ]
      have f0 : 4 * (k + 1) = 4 * k + 1 + 1 + 1 + 1 := by ring
      have f1 : 4 * (k + 1) + 1 = (4 * k + 1) + 1 + 1 + 1 + 1 := by ring
      have f2 : 4 * (k + 1) + 2 = (4 * k + 2) + 1 + 1 + 1 + 1 := by ring
      have f3 : 4 * (k + 1) + 3 = (4 * k + 3) + 1 + 1 + 1 + 1 := by ring
      simp only [EncodeToString]
      rw [f3, f2, f1, f0]
      simp only [List.getElem?_cons_succ]
      exact ih k v hk2 hv2

theorem quantum_inj (a0 a1 a2 b0 b1 b2 : Nat)
    (ha0 : a0 < 256) (ha1 : a1 < 256) (ha2 : a2 < 256)
    (hb0 : b0 < 256) (hb1 : b1 < 256) (hb2 : b2 < 256)
    (h1 : (a0 * 65536 + a1 * 256 + a2) / 262144 % 64 = (b0 * 65536 + b1 * 256 + b2) / 262144 % 64)
    (h2 : (a0 * 65536 + a1 * 256 + a2) / 4096 % 64 = (b0 * 65536 + b1 * 256 + b2) / 4096 % 64)
    (h3 : (a0 * 65536 + a1 * 256 + a2) / 64 % 64 = (b0 * 65536 + b1 * 256 + b2) / 64 % 64)
    (h4 : (a0 * 65536 + a1 * 256 + a2) % 64 = (b0 * 65536 + b1 * 256 + b2) % 64) :
    a0 = b0 ∧ a1 = b1 ∧ a2 = b2 := by
  omega


theorem getD_map_range (f : Nat → Nat) (n i : Nat) (h : i < n) :
    ((List.range n).map f).getD i 0 = f i := by
  simp [List.getD_eq_getElem?_getD, List.getElem?_range h]

theorem encode_inj_bytes (l1 l2 : List Nat) (n : Nat)
    (h1 : l1.length = 3 * n) (h2 : l2.length = 3 * n)
    (hb1 : ∀ i, i < 3 * n → l1.getD i 0 < 256) (hb2 : ∀ i, i < 3 * n → l2.getD i 0 < 256)
    (heq : EncodeToString l1 = EncodeToString l2) :
    ∀ i, i < 3 * n → l1.getD i 0 = l2.getD i 0 := by
  intro i hi
  have hm1 : l1.length % 3 = 0 := by omega
  have hm2 : l2.length % 3 = 0 := by omega
  have hk : 3 * (i / 3) + 2 < 3 * n := by omega
  obtain ⟨p0, p1, p2, p3⟩ := encode_getElem l1 hm1 (i / 3) _ (by omega) rfl
  obtain ⟨q0, q1, q2, q3⟩ := encode_getElem l2 hm2 (i / 3) _ (by omega) rfl
  rw [heq] at p0 p1 p2 p3
  have e0 := encodeChar_inj _ _ (Option.some.inj (p0.symm.trans q0))
  have e1 := encodeChar_inj _ _ (Option.some.inj (p1.symm.trans q1))
  have e2 := encodeChar_inj _ _ (Option.some.inj (p2.symm.trans q2))
  have e3 := encodeChar_inj _ _ (Option.some.inj (p3.symm.trans q3))
  have a0 := hb1 (3 * (i / 3)) (by omega)
  have a1 := hb1 (3 * (i / 3) + 1) (by omega)
  have a2 := hb1 (3 * (i / 3) + 2) (by omega)
  have b0 := hb2 (3 * (i / 3)) (by omega)
  have b1 := hb2 (3 * (i / 3) + 1) (by omega)
  have b2 := hb2 (3 * (i / 3) + 2) (by omega)
  obtain ⟨r0, r1, r2⟩ := quantum_inj _ _ _ _ _ _ a0 a1 a2 b0 b1 b2 e0 e1 e2 e3
  have hcase : i = 3 * (i / 3) ∨ i = 3 * (i / 3) + 1 ∨ i = 3 * (i / 3) + 2 := by omega
  rcases hcase with h | h | h
  · rw [h]; exact r0
  · rw [h]; exact r1
  · rw [h]; exact r2

/-- C20: whenever `GenerateSharedSecret` returns without error, the secret is
the standard base64 encoding of the `DecodedLen(1024)` = 768 bytes read from
the random source: every three bytes of the source give the four characters
of the alphabet that stand for their 24 bits, six bits each, so that two
sources give the same secret exactly when they yield the same 768 bytes.  Its
length is exactly 1024 characters (within the limits 6 and 1024), every
character of it is in the base64 alphabet, and it holds no padding character
`=`. -/
theorem shared_secret_shape (rand : RandReader)
    (hok : (GenerateSharedSecret rand).2 = none) :
    DecodedLen 1024 = 768 ∧
      (GenerateSharedSecret rand).1 =
        String.mk (EncodeToString ((List.range 768).map (fun i => rand.next i % 256))) ∧
      (∀ k v, k < 256 →
        v = rand.next (3 * k) % 256 * 65536 + rand.next (3 * k + 1) % 256 * 256 +
              rand.next (3 * k + 2) % 256 →
        (GenerateSharedSecret rand).1.data[4 * k]? = some (encodeChar (v / 262144)) ∧
          (GenerateSharedSecret rand).1.data[4 * k + 1]? = some (encodeChar (v / 4096)) ∧
          (GenerateSharedSecret rand).1.data[4 * k + 2]? = some (encodeChar (v / 64)) ∧
          (GenerateSharedSecret rand).1.data[4 * k + 3]? = some (encodeChar v)) ∧
      (∀ other : RandReader, (GenerateSharedSecret other).2 = none →
        ((GenerateSharedSecret other).1 = (GenerateSharedSecret rand).1 ↔
          ∀ i, i < 768 → other.next i % 256 = rand.next i % 256)) ∧
      (GenerateSharedSecret rand).1.length = 1024 ∧
      6 ≤ (GenerateSharedSecret rand).1.length ∧
      (GenerateSharedSecret rand).1.length ≤ 1024 ∧
      (∀ c ∈ (GenerateSharedSecret rand).1.data, c ∈ encodeStd) ∧
      '=' ∉ (GenerateSharedSecret rand).1.data := by
  have hdec : DecodedLen 1024 = 768 := by decide
  have hsec : ∀ r : RandReader, (GenerateSharedSecret r).2 = none →
      ∃ buf : List Nat, buf = (List.range 768).map (fun i => r.next i % 256) ∧
        buf.length = 768 ∧ (∀ i, i < 768 → buf.getD i 0 = r.next i % 256) ∧
        (GenerateSharedSecret r).1 = String.mk (EncodeToString buf) := by
    intro r hr
    have herr : r.err = none := by
      cases he : r.err with
      | none => rfl
      | some err => simp [GenerateSharedSecret, he] at hr
    refine ⟨_, rfl, by simp, fun i hi => getD_map_range _ 768 i hi, ?_⟩
    simp [GenerateSharedSecret, herr, hdec]
  obtain ⟨buf, hbuf, hlen, hget, hsecret⟩ := hsec rand hok
  have hmod : buf.length % 3 = 0 := by rw [hlen]
  have hlength : (GenerateSharedSecret rand).1.length = 1024 := by
    rw [hsecret]
    show (EncodeToString buf).length = 1024
    rw [encode_length buf hmod, hlen]
  have hmem : ∀ c ∈ (GenerateSharedSecret rand).1.data, c ∈ encodeStd := by
    rw [hsecret]
    exact encode_mem buf hmod
  refine ⟨hdec, by rw [hsecret, hbuf], ?_, ?_, hlength, by omega, by omega, hmem, ?_⟩
  · intro k v hk hv
    rw [hsecret]
    show (EncodeToString buf)[4 * k]? = _ ∧ (EncodeToString buf)[4 * k + 1]? = _ ∧
      (EncodeToString buf)[4 * k + 2]? = _ ∧ (EncodeToString buf)[4 * k + 3]? = _
    refine encode_getElem buf hmod k v (by omega) ?_
    rw [hget _ (by omega), hget _ (by omega), hget _ (by omega)]
    exact hv
  · intro other hother
    obtain ⟨buf2, hbuf2, hlen2, hget2, hsecret2⟩ := hsec other hother
    rw [hsecret, hsecret2]
    constructor
    · intro heq i hi
      have hlist : EncodeToString buf2 = EncodeToString buf := by
        simpa using congrArg String.data heq
      have := encode_inj_bytes buf2 buf 256 hlen2 hlen
        (fun j hj => by rw [hget2 j hj]; exact Nat.mod_lt _ (by decide))
        (fun j hj => by rw [hget j hj]; exact Nat.mod_lt _ (by decide)) hlist i hi
      rwa [hget2 i hi, hget i hi] at this
    · intro hall
      have : buf2 = buf := by
        rw [hbuf, hbuf2]
        apply List.map_congr_left
        intro i hi
        exact hall i (List.mem_range.mp hi)
      rw [this]
  · intro h
    have := hmem '=' h
    revert this
    decide

/-- The secret made from the counting random source has 1024 characters and
begins with `AAEC`, the encoding of the bytes 0, 1 and 2. -/
theorem shared_secret_shape_witness :
    (GenerateSharedSecret countingReader).1.length = 1024 ∧
      (GenerateSharedSecret countingReader).1.data[0]? = some 'A' ∧
      (GenerateSharedSecret countingReader).1.data[1]? = some 'A' ∧
      (GenerateSharedSecret countingReader).1.data[2]? = some 'E' ∧
      (GenerateSharedSecret countingReader).1.data[3]? = some 'C' :=
  ⟨(shared_secret_shape countingReader (by rfl)).2.2.2.2.1,
    (shared_secret_shape countingReader (by rfl)).2.2.1 0 258 (by decide) (by rfl)⟩

end Mongo

namespace InstancePoller

/-! ## No state across batches -/

theorem step_onto (cfg : Config) (s0 t : State) (e : Event) :
    step cfg (State.onto s0 t) e = State.onto s0 (step cfg t e) := by
  obtain ⟨phase, calls, sent, sealed⟩ := t
  cases phase <;> cases e <;> simp [State.onto, step, sealBatch]
  all_goals cases cfg.onStop <;> simp [sealBatch]

theorem run_onto (cfg : Config) (s0 : State) (es : List Event) :
    ∀ t, run cfg (State.onto s0 t) es = State.onto s0 (run cfg t es) := by
  induction es with
  | nil => intro t; rfl
  | cons e es ih =>
    intro t
    rw [run_cons, run_cons, step_onto, ih]

theorem onto_init (s : State) (h : s.phase = Phase.idle) : State.onto s State.init = s := by
  obtain ⟨phase, calls, sent, sealed⟩ := s
  simp only at h
  subst h
  simp [State.onto, State.init]

theorem batchOf_waited (reqs : List instanceInfoReq) : (batchOf reqs).Waited := by
  induction reqs using List.reverseRecOn with
  | nil => intro e he; simp [batchOf] at he
  | append_singleton reqs req ih => rw [batchOf_snoc]; exact add_waited _ _ ih

theorem step_timer_idle (cfg : Config) (s : State) (b : Batch) (o d : Nat)
    (h : s.phase = Phase.collecting b o d) :
    (step cfg s Event.timerFires).phase = Phase.idle := by
  obtain ⟨phase, calls, sent, sealed⟩ := s
  simp only at h
  subst h
  rfl

/-- C24: when the timer fires on an open batch the loop is idle again with no
request pending, and from there on it behaves as a fresh aggregator, only
appending to what it has logged.  A window of requests that arrives after the
seal is not added to the sealed batch: it opens the next batch, whose Instance
Getter call holds exactly the identifiers of the requests of that window. -/
theorem no_state_across_batches (cfg : Config) (es : List Event) (b : Batch) (o d : Nat)
    (hphase : (run cfg State.init es).phase = Phase.collecting b o d) :
    (step cfg (run cfg State.init es) Event.timerFires).phase = Phase.idle ∧
      (step cfg (run cfg State.init es) Event.timerFires).pending = [] ∧
      (∀ es', run cfg (step cfg (run cfg State.init es) Event.timerFires) es' =
        State.onto (step cfg (run cfg State.init es) Event.timerFires)
          (run cfg State.init es')) ∧
      (∀ now req rs,
        (run cfg (step cfg (run cfg State.init es) Event.timerFires)
            ((Event.request now req :: arrivals rs) ++ [Event.timerFires])).calls =
          (run cfg State.init es).calls ++ [b.ids] ++
            [(batchOf (req :: rs.map Prod.snd)).ids] ∧
        (run cfg (step cfg (run cfg State.init es) Event.timerFires)
            ((Event.request now req :: arrivals rs) ++ [Event.timerFires])).sealed =
          (run cfg State.init es).sealed ++
            [{ batch := b, openedAt := o, deadline := d, sealedBy := SealedBy.timer }] ++
            [{ batch := batchOf (req :: rs.map Prod.snd), openedAt := now,
               deadline := now + cfg.gatherTime, sealedBy := SealedBy.timer }] ∧
        (∀ id, id ∈ (batchOf (req :: rs.map Prod.snd)).ids ↔
          ∃ r ∈ req :: rs.map Prod.snd, r.instId = id)) := by
  have hidle := step_timer_idle cfg _ b o d hphase
  have hstep : step cfg (run cfg State.init es) Event.timerFires =
      sealBatch cfg (run cfg State.init es) b o d SealedBy.timer Phase.idle := by
    generalize run cfg State.init es = s at hphase
    obtain ⟨phase, calls, sent, sealed⟩ := s
    simp only at hphase
    subst hphase
    rfl
  refine ⟨hidle, by simp [State.pending, hidle], ?_, ?_⟩
  · intro es'
    have h := run_onto cfg (step cfg (run cfg State.init es) Event.timerFires) es' State.init
    rw [onto_init _ hidle] at h
    exact h
  · intro now req rs
    have hw := run_window cfg _ now req rs hidle
    refine ⟨?_, ?_, ?_⟩
    · rw [run_append, hw, hstep]
      simp [run, step, sealBatch]
    · rw [run_append, hw, hstep]
      simp [run, step, sealBatch]
    · intro id
      constructor
      · intro hid
        obtain ⟨w, hw', hwid⟩ :=
          exists_waiter_of_mem_ids _ (batchOf_wf _) (batchOf_waited _) id hid
        exact ⟨w, (batchOf_requests_perm _).mem_iff.mp hw', hwid⟩
      · rintro ⟨r, hr, rfl⟩
        exact mem_ids_of_mem_requests _ (batchOf_wf _) r
          ((batchOf_requests_perm _).mem_iff.mpr hr)

/-- The scenario of `TestMultipleResponseHandling`: after the lookup of "foo"
is answered, the lookups of foo2 and foo3 make a call with exactly these two
identifiers. -/
theorem no_state_across_batches_witness :
    (run (newAggregator multipleGetter 30 StopPolicy.rejectPending)
        (step (newAggregator multipleGetter 30 StopPolicy.rejectPending)
          (run (newAggregator multipleGetter 30 StopPolicy.rejectPending) State.init
            [Event.request 0 ⟨"foo", 0⟩]) Event.timerFires)
        ((Event.request 40 ⟨"foo2", 1⟩ :: arrivals [(41, ⟨"foo3", 2⟩)]) ++
          [Event.timerFires])).calls =
      [["foo"], ["foo2", "foo3"]] :=
  ((no_state_across_batches (newAggregator multipleGetter 30 StopPolicy.rejectPending)
    [Event.request 0 ⟨"foo", 0⟩] [("foo", [⟨"foo", 0⟩])] 0 30 (by rfl)).2.2.2
    40 ⟨"foo2", 1⟩ [(41, ⟨"foo3", 2⟩)]).1

end InstancePoller

namespace Instances

/-! ## Conversion of image metadata, matching and preference -/

theorem toImages_map (ms : List ImageMetadata) :
    ImageMetadataToImages (ms.map some) =
      some (ms.map (fun input =>
        ({ Id := input.Id, Arch := input.Arch, VirtType := input.VirtType } : Image))) := by
  induction ms with
  | nil => rfl
  | cons m ms ih => simp [ImageMetadataToImages, ih]

/-- C21: on a list of valid pointers `ImageMetadataToImages` returns a list of
the same length whose element at every index is the image with the `Id`, the
`Arch` and the `VirtType` of the input at that index; the empty input gives
the empty result. -/
theorem image_metadata_to_images (ms : List ImageMetadata) :
    ImageMetadataToImages (ms.map some) =
        some (ms.map (fun input =>
          ({ Id := input.Id, Arch := input.Arch, VirtType := input.VirtType } : Image))) ∧
      (∀ result, ImageMetadataToImages (ms.map some) = some result →
        result.length = ms.length ∧
        ∀ (i : Nat) (input : ImageMetadata), ms[i]? = some input →
          result[i]? =
            some ({ Id := input.Id, Arch := input.Arch, VirtType := input.VirtType } :
              Image)) ∧
      ImageMetadataToImages [] = some [] := by
  refine ⟨toImages_map ms, ?_, rfl⟩
  intro result h
  rw [toImages_map] at h
  cases h
  refine ⟨by simp, ?_⟩
  intro i input hi
  simp [List.getElem?_map, hi]

/-- Two metadata records are converted in order, field by field. -/
theorem image_metadata_to_images_witness :
    ([{ Id := "ami-1", Arch := "amd64", VirtType := "hvm" },
      { Id := "ami-2", Arch := "i386", VirtType := "pv" }] : List Image)[1]? =
      some { Id := "ami-2", Arch := "i386", VirtType := "pv" } :=
  ((image_metadata_to_images
      [{ Id := "ami-1", VirtType := "hvm", Arch := "amd64" },
       { Id := "ami-2", VirtType := "pv", Arch := "i386" }]).2.1
    [{ Id := "ami-1", Arch := "amd64", VirtType := "hvm" },
     { Id := "ami-2", Arch := "i386", VirtType := "pv" }] (by rfl)).2
    1 { Id := "ami-2", VirtType := "pv", Arch := "i386" } (by rfl)

/-- C26: `Image.match` is true exactly when the instance type's
virtualisation type is nil or equal to the image's and the image's
architecture is among the type's; so it is false for every instance type
without architectures. -/
theorem image_match_reference (image : Image) (itype : InstanceType) :
    (image.matches itype = true ↔
        (itype.VirtType = none ∨ itype.VirtType = some image.VirtType) ∧
          image.Arch ∈ itype.Arches) ∧
      (itype.Arches = [] → image.matches itype = false) := by
  have h := matches_iff image itype
  refine ⟨⟨fun hm => ⟨(h.mp hm).2, (h.mp hm).1⟩, fun hm => h.mpr ⟨hm.2, hm.1⟩⟩, ?_⟩
  intro he
  cases hm : image.matches itype with
  | false => rfl
  | true =>
    have := (h.mp hm).1
    rw [he] at this
    cases this

/-- An instance type without architectures matches no image. -/
theorem image_match_reference_witness :
    Image.matches { Id := "ami-1", Arch := "amd64", VirtType := "hvm" }
      { Name := "m1.none", Arches := [], VirtType := none } = false :=
  (image_match_reference { Id := "ami-1", Arch := "amd64", VirtType := "hvm" }
    { Name := "m1.none", Arches := [], VirtType := none }).2 (by rfl)

theorem find?_first_spec (hostArch : String) (specs pre post : List InstanceSpec)
    (s : InstanceSpec) (hall : specs = pre ++ s :: post) (hs : s.Image.Arch = hostArch)
    (hpre : ∀ x ∈ pre, x.Image.Arch ≠ hostArch) :
    specs.find? (fun spec => spec.Image.Arch = hostArch) = some s := by
  subst hall
  induction pre with
  | nil => simp [List.find?, hs]
  | cons x pre ih =>
    have hx : x.Image.Arch ≠ hostArch := hpre x (List.mem_cons_self _ _)
    simp only [List.cons_append, List.find?, hx, decide_False]
    exact ih (fun y hy => hpre y (List.mem_cons_of_mem _ hy))

/-- C27: `preferredSpec` returns nil exactly for the empty list; when the list
holds a spec whose image has the host's architecture it returns the first
such spec; otherwise it returns the first element; and what it returns is an
element of the list. -/
theorem preferred_spec_host_arch (hostArch : String) (specs : List InstanceSpec) :
    (preferredSpec hostArch specs = none ↔ specs = []) ∧
      (∀ pre s post, specs = pre ++ s :: post → s.Image.Arch = hostArch →
        (∀ x ∈ pre, x.Image.Arch ≠ hostArch) → preferredSpec hostArch specs = some s) ∧
      ((∀ x ∈ specs, x.Image.Arch ≠ hostArch) → preferredSpec hostArch specs = specs.head?) ∧
      (∀ s, preferredSpec hostArch specs = some s → s ∈ specs) := by
  refine ⟨preferredSpec_eq_none hostArch specs, ?_, ?_, preferredSpec_mem hostArch specs⟩
  · intro pre s post hall hs hpre
    have hf := find?_first_spec hostArch specs pre post s hall hs hpre
    by_cases hlen : 1 < specs.length
    · simp [preferredSpec, hlen, hf]
    · have hpos : 0 < specs.length := by rw [hall]; simp
      have hone : specs = [s] := by
        cases pre with
        | nil =>
          cases post with
          | nil => exact hall
          | cons y post => rw [hall] at hlen; simp at hlen
        | cons x pre => rw [hall] at hlen; simp at hlen
      rw [hone]
      rfl
  · intro hno
    have hf : specs.find? (fun spec => spec.Image.Arch = hostArch) = none := by
      rw [List.find?_eq_none]
      intro x hx
      simpa using hno x hx
    cases specs with
    | nil => rfl
    | cons x rest => simp [preferredSpec, hf]

/-- With the host architecture amd64 the second of two specs, the first with
an amd64 image, is preferred. -/
theorem preferred_spec_host_arch_witness :
    preferredSpec "amd64"
        [{ InstanceType := { Name := "m1.small", Arches := ["i386"], VirtType := none },
           Image := { Id := "ami-1", Arch := "i386", VirtType := "pv" } },
         { InstanceType := { Name := "m1.small", Arches := ["amd64"], VirtType := none },
           Image := { Id := "ami-2", Arch := "amd64", VirtType := "pv" } }] =
      some { InstanceType := { Name := "m1.small", Arches := ["amd64"], VirtType := none },
             Image := { Id := "ami-2", Arch := "amd64", VirtType := "pv" } } :=
  (preferred_spec_host_arch "amd64"
    [{ InstanceType := { Name := "m1.small", Arches := ["i386"], VirtType := none },
       Image := { Id := "ami-1", Arch := "i386", VirtType := "pv" } },
     { InstanceType := { Name := "m1.small", Arches := ["amd64"], VirtType := none },
       Image := { Id := "ami-2", Arch := "amd64", VirtType := "pv" } }]).2.1
    [{ InstanceType := { Name := "m1.small", Arches := ["i386"], VirtType := none },
       Image := { Id := "ami-1", Arch := "i386", VirtType := "pv" } }]
    { InstanceType := { Name := "m1.small", Arches := ["amd64"], VirtType := none },
      Image := { Id := "ami-2", Arch := "amd64", VirtType := "pv" } }
    [] (by rfl) (by rfl) (by decide)

end Instances

namespace Juju

/-! ## Argument validation of bootstrap and destroy-unit -/

/-- C22: when the embedded `EnvCommandBase.Init` succeeds,
`BootstrapCommand.Init` returns the error "--series requires --upload-tools"
whenever `Series` is non-empty and `UploadTools` is false; past that check,
with a non-empty `Placement` it returns the unsupported-directive error unless
`ParsePlacement` fails with exactly `ErrPlacementScopeMissing` (a directive
that parses, or fails otherwise, is rejected); past both checks it returns
what `CheckEmpty` returns, so that, `CheckEmpty` being nil exactly on no
arguments, it returns nil exactly when both checks pass and no argument
remains. -/
theorem bootstrap_init (deps : BootstrapDeps) (c : BootstrapCommand) (args : List String)
    (hbase : deps.EnvCommandBaseInit = none) :
    (c.Series ≠ [] → c.UploadTools = false →
        c.Init deps args = some (Error.Errorf "--series requires --upload-tools")) ∧
      ((c.Series = [] ∨ c.UploadTools = true) → c.Placement ≠ "" →
        deps.ParsePlacement c.Placement ≠ some Error.ErrPlacementScopeMissing →
        c.Init deps args =
          some (Error.Errorf ("unsupported bootstrap placement directive " ++
            deps.Quote c.Placement))) ∧
      ((c.Series = [] ∨ c.UploadTools = true) →
        (c.Placement = "" ∨
          deps.ParsePlacement c.Placement = some Error.ErrPlacementScopeMissing) →
        c.Init deps args = deps.CheckEmpty args) ∧
      ((∀ a, deps.CheckEmpty a = none ↔ a = []) →
        (c.Init deps args = none ↔
          (c.Series = [] ∨ c.UploadTools = true) ∧
            (c.Placement = "" ∨
              deps.ParsePlacement c.Placement = some Error.ErrPlacementScopeMissing) ∧
            args = [])) := by
  have hseries : (0 < c.Series.length ∧ ¬ c.UploadTools = true) ↔
      ¬ (c.Series = [] ∨ c.UploadTools = true) := by
    rw [List.length_pos]
    tauto
  have h1 : c.Series ≠ [] → c.UploadTools = false →
      c.Init deps args = some (Error.Errorf "--series requires --upload-tools") := by
    intro hs hu
    have : 0 < c.Series.length := List.length_pos.mpr hs
    simp [BootstrapCommand.Init, hbase, this, hu]
  have h2 : (c.Series = [] ∨ c.UploadTools = true) → c.Placement ≠ "" →
      deps.ParsePlacement c.Placement ≠ some Error.ErrPlacementScopeMissing →
      c.Init deps args =
        some (Error.Errorf ("unsupported bootstrap placement directive " ++
          deps.Quote c.Placement)) := by
    intro hs hp hparse
    have hn : ¬ (0 < c.Series.length ∧ ¬ c.UploadTools = true) := by
      rw [hseries]; exact fun h => h hs
    simp only [BootstrapCommand.Init, hbase]
    rw [if_neg hn, if_pos ⟨hp, hparse⟩]
  have h3 : (c.Series = [] ∨ c.UploadTools = true) →
      (c.Placement = "" ∨
        deps.ParsePlacement c.Placement = some Error.ErrPlacementScopeMissing) →
      c.Init deps args = deps.CheckEmpty args := by
    intro hs hp
    have hn : ¬ (0 < c.Series.length ∧ ¬ c.UploadTools = true) := by
      rw [hseries]; exact fun h => h hs
    have hn2 : ¬ (c.Placement ≠ "" ∧
        deps.ParsePlacement c.Placement ≠ some Error.ErrPlacementScopeMissing) := by
      rintro ⟨ha, hb⟩
      rcases hp with hp | hp
      · exact ha hp
      · exact hb hp
    simp only [BootstrapCommand.Init, hbase]
    rw [if_neg hn, if_neg hn2]
  refine ⟨h1, h2, h3, ?_⟩
  intro hcheck
  constructor
  · intro hnil
    by_cases hs : c.Series = [] ∨ c.UploadTools = true
    · by_cases hp : c.Placement = "" ∨
          deps.ParsePlacement c.Placement = some Error.ErrPlacementScopeMissing
      · rw [h3 hs hp] at hnil
        exact ⟨hs, hp, (hcheck args).mp hnil⟩
      · have hp1 : c.Placement ≠ "" := fun h => hp (Or.inl h)
        have hp2 : deps.ParsePlacement c.Placement ≠ some Error.ErrPlacementScopeMissing :=
          fun h => hp (Or.inr h)
        rw [h2 hs hp1 hp2] at hnil
        cases hnil
    · have hs1 : c.Series ≠ [] := fun h => hs (Or.inl h)
      have hs2 : c.UploadTools = false := by
        cases hu : c.UploadTools with
        | false => rfl
        | true => exact absurd (Or.inr hu) hs
      rw [h1 hs1 hs2] at hnil
      cases hnil
  · rintro ⟨hs, hp, ha⟩
    rw [h3 hs hp]
    exact (hcheck args).mpr ha

/-- A series without upload-tools is rejected; a scoped directive is rejected. -/
theorem bootstrap_init_witness :
    BootstrapCommand.Init testBootstrapDeps
        { UploadTools := false, Series := ["precise"], Placement := "" } [] =
      some (Error.Errorf "--series requires --upload-tools") ∧
    BootstrapCommand.Init testBootstrapDeps
        { UploadTools := true, Series := ["precise"], Placement := "lxc:0" } [] =
      some (Error.Errorf "unsupported bootstrap placement directive \"lxc:0\"") :=
  ⟨(bootstrap_init testBootstrapDeps
      { UploadTools := false, Series := ["precise"], Placement := "" } [] (by rfl)).1
      (by decide) (by rfl),
   (bootstrap_init testBootstrapDeps
      { UploadTools := true, Series := ["precise"], Placement := "lxc:0" } [] (by rfl)).2.1
      (Or.inr (by rfl)) (by decide) (by decide)⟩

theorem firstInvalid_none (IsUnit : String → Bool) (args : List String) :
    firstInvalid IsUnit args = none ↔ ∀ x ∈ args, IsUnit x = true := by
  induction args with
  | nil => simp [firstInvalid]
  | cons a rest ih =>
    by_cases ha : IsUnit a = true
    · simp [firstInvalid, ha, ih]
    · simp [firstInvalid, ha]

theorem firstInvalid_first (IsUnit : String → Bool) (args pre post : List String) (n : String)
    (hall : args = pre ++ n :: post) (hn : IsUnit n = false)
    (hpre : ∀ x ∈ pre, IsUnit x = true) : firstInvalid IsUnit args = some n := by
  subst hall
  induction pre with
  | nil => simp [firstInvalid, hn]
  | cons x pre ih =>
    have hx : IsUnit x = true := hpre x (List.mem_cons_self _ _)
    simp only [List.cons_append, firstInvalid, hx, not_true_eq_false, if_false]
    exact ih (fun y hy => hpre y (List.mem_cons_of_mem _ hy))

theorem invalid_ne_no_units (q : String) : "invalid unit name " ++ q ≠ "no units specified" := by
  intro h
  have hd := congrArg String.data h
  rw [String.data_append] at hd
  have h1 : ("invalid unit name ".data ++ q.data).head? = some 'i' := rfl
  rw [hd] at h1
  revert h1
  decide

/-- C23: `DestroyUnitCommand.Init` returns the error "no units specified"
exactly for the empty argument list, the error of an invalid unit name for
the first argument that is not a unit name, and nil exactly when the list is
non-empty and every argument is a unit name; `UnitNames` is the argument list
afterwards. -/
theorem destroy_unit_init (IsUnit : String → Bool) (Quote : String → String)
    (c : DestroyUnitCommand) (args : List String) :
    ((c.Init IsUnit Quote args).1 = some "no units specified" ↔ args = []) ∧
      (∀ pre n post, args = pre ++ n :: post → IsUnit n = false →
        (∀ x ∈ pre, IsUnit x = true) →
        (c.Init IsUnit Quote args).1 = some ("invalid unit name " ++ Quote n)) ∧
      ((c.Init IsUnit Quote args).1 = none ↔ args ≠ [] ∧ ∀ x ∈ args, IsUnit x = true) ∧
      (c.Init IsUnit Quote args).2.UnitNames = args := by
  cases args with
  | nil =>
    refine ⟨by simp [DestroyUnitCommand.Init], ?_, by simp [DestroyUnitCommand.Init],
      by simp [DestroyUnitCommand.Init]⟩
    intro pre n post hall
    cases pre <;> cases hall
  | cons a rest =>
    have hlen : ¬ (a :: rest).length = 0 := by simp
    refine ⟨?_, ?_, ?_, ?_⟩
    · constructor
      · intro h
        simp only [DestroyUnitCommand.Init, hlen, if_false] at h
        cases hf : firstInvalid IsUnit (a :: rest) with
        | none => rw [hf] at h; cases h
        | some name =>
          rw [hf] at h
          exact absurd (Option.some.inj h) (invalid_ne_no_units (Quote name))
      · intro h; cases h
    · intro pre n post hall hn hpre
      have hf := firstInvalid_first IsUnit (a :: rest) pre post n hall hn hpre
      simp only [DestroyUnitCommand.Init, hlen, if_false, hf]
    · constructor
      · intro h
        simp only [DestroyUnitCommand.Init, hlen, if_false] at h
        cases hf : firstInvalid IsUnit (a :: rest) with
        | none => exact ⟨by simp, (firstInvalid_none IsUnit _).mp hf⟩
        | some name => rw [hf] at h; cases h
      · rintro ⟨-, hall⟩
        have hf := (firstInvalid_none IsUnit (a :: rest)).mpr hall
        simp only [DestroyUnitCommand.Init, hlen, if_false, hf]
    · simp only [DestroyUnitCommand.Init, hlen, if_false]
      cases firstInvalid IsUnit (a :: rest) <;> rfl

/-- The second of three arguments is the first that is not a unit name. -/
theorem destroy_unit_init_witness :
    (DestroyUnitCommand.Init testIsUnit (fun s => "\"" ++ s ++ "\"") { UnitNames := [] }
        ["wordpress/0", "mysql", "x"]).1 =
      some "invalid unit name \"mysql\"" :=
  (destroy_unit_init testIsUnit (fun s => "\"" ++ s ++ "\"") { UnitNames := [] }
    ["wordpress/0", "mysql", "x"]).2.1 ["wordpress/0"] "mysql" ["x"]
    (by rfl) (by decide) (by decide)

end Juju

namespace Api

/-! ## addAddress -/

/-- C25: `addAddress` returns the server list unchanged, without error, when
some host and port of some server has the address as its `NetAddr`, whether
or not the address is well formed; otherwise it returns the error of
`SplitHostPort` or of `Atoi` when the address does not split or its port is
no integer; and otherwise the list with one more server at the end, of the
single host and port made of the host, its derived address type, the unknown
network scope and the parsed port. -/
theorem add_address (deps : Deps) (servers : List (List HostPort)) (addr : String) :
    ((∃ server ∈ servers, ∃ hostPort ∈ server, deps.NetAddr hostPort = addr) →
        addAddress deps servers addr = Except.ok servers) ∧
      ((¬ ∃ server ∈ servers, ∃ hostPort ∈ server, deps.NetAddr hostPort = addr) →
        (∀ err, deps.SplitHostPort addr = Except.error err →
          addAddress deps servers addr = Except.error err) ∧
        (∀ host portString err, deps.SplitHostPort addr = Except.ok (host, portString) →
          deps.Atoi portString = Except.error err →
          addAddress deps servers addr = Except.error err) ∧
        (∀ host portString port, deps.SplitHostPort addr = Except.ok (host, portString) →
          deps.Atoi portString = Except.ok port →
          addAddress deps servers addr =
            Except.ok (servers ++
              [[{ Address := { Value := host, Type_ := deps.DeriveAddressType host,
                               NetworkName := "", NetworkScope := deps.NetworkUnknown },
                  Port := port }]]))) := by
  have hany : servers.any (fun server => server.any (fun hostPort =>
      decide (deps.NetAddr hostPort = addr))) = true ↔
      ∃ server ∈ servers, ∃ hostPort ∈ server, deps.NetAddr hostPort = addr := by
    simp [List.any_eq_true]
  refine ⟨?_, ?_⟩
  · intro h
    simp only [addAddress, hany.mpr h, if_true]
  · intro h
    have hn : ¬ servers.any (fun server => server.any (fun hostPort =>
        decide (deps.NetAddr hostPort = addr))) = true := fun hc => h (hany.mp hc)
    refine ⟨?_, ?_, ?_⟩
    · intro err hs
      simp [addAddress, hn, hs]
    · intro host portString err hs ha
      simp [addAddress, hn, hs, ha]
    · intro host portString port hs ha
      simp [addAddress, hn, hs, ha]

/-- The address localhost:1234 is appended to a list that does not hold it,
as a new server of one host and port. -/
theorem add_address_witness :
    addAddress testDeps
        [[{ Address := { Value := "10.0.0.1", Type_ := "ipv4", NetworkName := "",
                         NetworkScope := "" }, Port := 17070 }]] "localhost:1234" =
      Except.ok
        [[{ Address := { Value := "10.0.0.1", Type_ := "ipv4", NetworkName := "",
                         NetworkScope := "" }, Port := 17070 }],
         [{ Address := { Value := "localhost", Type_ := "hostname", NetworkName := "",
                         NetworkScope := "" }, Port := 1234 }]] :=
  ((add_address testDeps
      [[{ Address := { Value := "10.0.0.1", Type_ := "ipv4", NetworkName := "",
                       NetworkScope := "" }, Port := 17070 }]] "localhost:1234").2
    (by decide)).2.2 "localhost" "1234" 1234 (by rfl) (by rfl)

end Api

namespace Testing

/-! ## readLastLines -/

theorem nonEmptyLines_cons (text : String) (texts : List String) :
    nonEmptyLines (text :: texts) =
      if trimRightNewline text ≠ "" then trimRightNewline text :: nonEmptyLines texts
      else nonEmptyLines texts := by
  by_cases h : trimRightNewline text = "" <;> simp [nonEmptyLines, List.filter, h]

theorem scan_fold (n : Nat) (hn : 0 < n) (texts : List String) :
    ∀ st : List String × Nat,
      texts.foldl (scanStep n) (some st) = some ((nonEmptyLines texts).foldl (push n) st) := by
  induction texts with
  | nil => intro st; rfl
  | cons text texts ih =>
    intro st
    obtain ⟨lines, i⟩ := st
    have hn0 : n ≠ 0 := by omega
    rw [nonEmptyLines_cons, List.foldl_cons]
    by_cases h : trimRightNewline text = ""
    · simp only [scanStep, h, ne_eq, not_true_eq_false, if_false]
      exact ih (lines, i)
    · simp only [scanStep, h, ne_eq, not_false_eq_true, if_true, hn0, if_false,
        List.foldl_cons]
      exact ih _

theorem succ_mod_lt (n i : Nat) (h : i % n + 1 < n) : (i + 1) % n = i % n + 1 := by
  have h1 : 1 % n = 1 := Nat.mod_eq_of_lt (by omega)
  rw [Nat.add_mod, h1, Nat.mod_eq_of_lt h]

theorem succ_mod_eq (n i : Nat) (hn : 0 < n) (h : i % n + 1 = n) : (i + 1) % n = 0 := by
  rw [Nat.add_mod]
  rcases Nat.lt_or_ge 1 n with h1 | h1
  · rw [Nat.mod_eq_of_lt h1, h, Nat.mod_self]
  · have hn1 : n = 1 := by omega
    subst hn1
    exact Nat.mod_one _

theorem window_length (n : Nat) (ls : List String) : (window n ls).length = n := by
  simp only [window, List.length_append, List.length_replicate, List.length_drop]
  omega

theorem window_snoc (n : Nat) (hn : 0 < n) (ls : List String) (x : String) :
    window n (ls ++ [x]) = (window n ls).tail ++ [x] := by
  rcases Nat.lt_or_ge ls.length n with h | h
  · have h1 : n - ls.length = (n - (ls.length + 1)) + 1 := by omega
    have h2 : ls.length - n = 0 := by omega
    have h3 : ls.length + 1 - n = 0 := by omega
    simp only [window, List.length_append, List.length_singleton, h2, h3, List.drop_zero]
    rw [h1, List.replicate_succ]
    simp
  · have h1 : n - ls.length = 0 := by omega
    have h2 : n - (ls.length + 1) = 0 := by omega
    have h3 : ls.length + 1 - n = (ls.length - n) + 1 := by omega
    have h4 : ls.length - n + 1 ≤ ls.length := by omega
    simp only [window, List.length_append, List.length_singleton, h1, h2, List.replicate_zero,
      List.nil_append, h3]
    rw [List.drop_append_of_le_length h4, List.tail_drop]

/-- The ring after the lines `ls`: it splits at the position of the next
write into the part before and the part from there on, which read in turn are
the window of `ls`. -/
theorem ring_inv (n : Nat) (hn : 0 < n) (ls : List String) :
    ∃ A B : List String,
      ls.foldl (push n) (List.replicate n "", 0) = (A ++ B, ls.length) ∧
        A.length = ls.length % n ∧ B ++ A = window n ls := by
  induction ls using List.reverseRecOn with
  | nil =>
    refine ⟨[], List.replicate n "", by simp, by simp, by simp [window]⟩
  | append_singleton ls x ih =>
    obtain ⟨A, B, hfold, hA, hBA⟩ := ih
    have hlen : B.length + A.length = n := by
      rw [← List.length_append, hBA, window_length]
    have hk : ls.length % n < n := Nat.mod_lt _ hn
    cases B with
    | nil => simp at hlen; omega
    | cons b B' =>
      have hset : (A ++ b :: B').set (ls.length % n) x = A ++ x :: B' := by
        rw [← hA, List.set_append_right _ _ (le_refl _)]
        simp
      have hstep : (ls ++ [x]).foldl (push n) (List.replicate n "", 0) =
          (A ++ x :: B', ls.length + 1) := by
        rw [List.foldl_append, hfold]
        simp [push, hset]
      have hwin : window n (ls ++ [x]) = B' ++ A ++ [x] := by
        rw [window_snoc n hn, ← hBA]
        simp
      cases B' with
      | nil =>
        have hkn : ls.length % n + 1 = n := by
          simp at hlen; omega
        refine ⟨[], A ++ [x], ?_, ?_, ?_⟩
        · rw [hstep]; simp
        · simp [succ_mod_eq n ls.length hn hkn]
        · rw [hwin]; simp
      | cons b' B'' =>
        have hkn : ls.length % n + 1 < n := by
          simp at hlen; omega
        refine ⟨A ++ [x], b' :: B'', ?_, ?_, ?_⟩
        · rw [hstep]; simp
        · simp [succ_mod_lt n ls.length hkn, hA]
        · rw [hwin]; simp

theorem read_ring (n i : Nat) (lines : List String) (hlen : lines.length = n) :
    (List.range n).map (fun j => lines.getD ((j + i) % n) "") = lines.rotate i := by
  apply List.ext_getElem?
  intro j
  rcases Nat.lt_or_ge j n with hj | hj
  · have hn : 0 < n := by omega
    have hmod : (j + i) % n < lines.length := by rw [hlen]; exact Nat.mod_lt _ hn
    rw [List.getElem?_map, List.getElem?_range hj, List.getElem?_rotate (by omega), hlen]
    simp only [Option.map_some']
    rw [List.getD_eq_getElem _ _ hmod, List.getElem?_eq_getElem hmod]
  · rw [List.getElem?_eq_none (by simpa using hj),
      List.getElem?_eq_none (by rw [List.length_rotate]; omega)]

theorem rotate_split (A B : List String) (i : Nat) (hA : A.length = i % (A ++ B).length) :
    (A ++ B).rotate i = B ++ A := by
  rw [List.rotate_eq_drop_append_take_mod, ← hA, List.drop_left, List.take_left]

theorem filter_window (n : Nat) (ls : List String) (hne : ∀ l ∈ ls, l ≠ "") :
    (window n ls).filter (fun line => line ≠ "") = ls.drop (ls.length - n) := by
  simp only [window, List.filter_append]
  have h1 : (List.replicate (n - ls.length) "").filter (fun line => decide (line ≠ "")) = [] :=
    List.filter_replicate_of_neg (by simp)
  rw [h1, List.nil_append, List.filter_eq_self]
  intro l hl
  simpa using hne l (List.mem_of_mem_drop hl)

theorem nonEmptyLines_ne (texts : List String) : ∀ l ∈ nonEmptyLines texts, l ≠ "" := by
  intro l hl
  simp only [nonEmptyLines, List.mem_filter] at hl
  simpa using hl.2

theorem readLastLines_eq (texts : List String) (n : Nat) (hn : 0 < n) :
    readLastLines texts none n =
      some ((if n < (nonEmptyLines texts).length
              then [omitted ((nonEmptyLines texts).length - n)] else []) ++
        (nonEmptyLines texts).drop ((nonEmptyLines texts).length - n)) := by
  obtain ⟨A, B, hfold, hA, hBA⟩ := ring_inv n hn (nonEmptyLines texts)
  have hlen : (A ++ B).length = n := by
    rw [List.length_append, Nat.add_comm, ← List.length_append, hBA, window_length]
  have hrot : (A ++ B).rotate (nonEmptyLines texts).length = window n (nonEmptyLines texts) := by
    rw [rotate_split A B _ (by rw [hlen]; exact hA), hBA]
  unfold readLastLines
  rw [scan_fold n hn texts, hfold]
  simp only [read_ring n _ (A ++ B) hlen, hrot,
    filter_window n _ (nonEmptyLines_ne texts), omitted]

/-- C28: for every positive `n` and every reader that its scanner reads
without error, with `k` non-empty lines, `readLastLines` returns these lines
when `k` is at most `n`, and the marker `[k-n lines omitted]` followed by the
last `n` of them when `k` is greater than `n`: the last `min k n` non-empty
lines in their order, empty lines neither returned nor counted, and the marker
exactly when `k` is greater than `n`. -/
theorem read_last_lines (texts : List String) (n : Nat) (hn : 0 < n) :
    ((nonEmptyLines texts).length ≤ n →
        readLastLines texts none n = some (nonEmptyLines texts)) ∧
      (n < (nonEmptyLines texts).length →
        readLastLines texts none n =
          some (("[" ++ toString ((nonEmptyLines texts).length - n) ++ " lines omitted]") ::
            (nonEmptyLines texts).drop ((nonEmptyLines texts).length - n))) ∧
      ((nonEmptyLines texts).drop ((nonEmptyLines texts).length - n)).length =
        min (nonEmptyLines texts).length n ∧
      (∀ l ∈ nonEmptyLines texts, l ≠ "") := by
  have h := readLastLines_eq texts n hn
  refine ⟨?_, ?_, ?_, nonEmptyLines_ne texts⟩
  · intro hk
    have h1 : ¬ n < (nonEmptyLines texts).length := by omega
    have h2 : (nonEmptyLines texts).length - n = 0 := by omega
    rw [h, if_neg h1, h2]
    simp
  · intro hk
    rw [h, if_pos hk]
    simp [omitted]
  · rw [List.length_drop]
    omega

/-- Of five non-empty lines and one empty line the last three are returned
after the marker for two omitted lines. -/
theorem read_last_lines_witness :
    readLastLines ["a", "", "b", "c", "d\n", "e"] none 3 =
      some ["[2 lines omitted]", "c", "d", "e"] :=
  ((read_last_lines ["a", "", "b", "c", "d\n", "e"] 3 (by decide)).2.1 (by decide)).trans
    (by decide)


end Testing
